import Mathlib

/-!
Verification development for the Klook offer-curation pipeline
(src/offer_curation.ts). The script is a TypeScript program working over
loosely-typed JSON data; we shallowly embed the relevant JavaScript value
model (JsValue, JsNum) and translate the pipeline functions
(extractImageDetails, renderSections, structureActivity, parseJsonResponse,
the hero-image reconciliation inside gradeOffer, the batch sort in
gradeOffers, and the status filter in main) as executable Lean definitions.
JavaScript numbers are idealised as exact rationals (plus NaN and the two
infinities); this matches the program on every value the claims exercise.
-/

namespace OfferCuration

/-- Model of a JavaScript number: an exact rational, NaN, or an infinity.
IEEE doubles are idealised as exact rationals. -/
inductive JsNum where
  | nan
  | inf
  | ninf
  | val (q : ℚ)
deriving DecidableEq

/-- Model of a JavaScript value as it arises from JSON data plus the
undefined value (absent properties). Objects are ordered field lists. -/
inductive JsValue where
  | null
  | undefined
  | bool (b : Bool)
  | num (n : JsNum)
  | str (s : String)
  | arr (elems : List JsValue)
  | obj (fields : List (String × JsValue))

/-- JavaScript truthiness of a value. -/
def jsTruthy : JsValue → Bool
  | .null => false
  | .undefined => false
  | .bool b => b
  | .num .nan => false
  | .num (.val q) => q != 0
  | .num _ => true
  | .str s => s != ""
  | .arr _ => true
  | .obj _ => true

/-- Last binding of a key in an object field list (JSON.parse keeps the
last duplicate key, so property access sees the last binding). -/
def lookupLast (key : String) : List (String × JsValue) → Option JsValue
  | [] => none
  | (k, v) :: rest =>
    match lookupLast key rest with
    | some w => some w
    | none => if k = key then some v else none

/-- Property access v[key]: undefined on non-objects and missing keys.
(Property access on the null value would throw in JavaScript; no modelled
code path reads a property off null.) -/
def jsGet (v : JsValue) (key : String) : JsValue :=
  match v with
  | .obj fields =>
    match lookupLast key fields with
    | some w => w
    | none => .undefined
  | _ => .undefined

/-- The JavaScript a || b short-circuit: a when truthy, else b. -/
def jsOr (a b : JsValue) : JsValue :=
  if jsTruthy a then a else b

/-- typeof v === "string" narrowing: the string, else none. -/
def asString : JsValue → Option String
  | .str s => some s
  | _ => none

/-- typeof v === "number" narrowing: the number, else none. -/
def asNumber : JsValue → Option JsNum
  | .num n => some n
  | _ => none

/-- typeof v === "object" && v !== null: true for objects and arrays. -/
def isObjectLike : JsValue → Bool
  | .arr _ => true
  | .obj _ => true
  | _ => false

/-- Math.max on the number model (NaN propagates); the rational case is
written with the executable comparison Rat.blt. -/
def jsMax : JsNum → JsNum → JsNum
  | .nan, _ => .nan
  | _, .nan => .nan
  | .inf, _ => .inf
  | _, .inf => .inf
  | .ninf, b => b
  | a, .ninf => a
  | .val p, .val q => .val (if Rat.blt p q then q else p)

/-- Math.min on the number model (NaN propagates); the rational case is
written with the executable comparison Rat.blt. -/
def jsMin : JsNum → JsNum → JsNum
  | .nan, _ => .nan
  | _, .nan => .nan
  | .ninf, _ => .ninf
  | _, .ninf => .ninf
  | .inf, b => b
  | a, .inf => a
  | .val p, .val q => .val (if Rat.blt p q then p else q)

/-- Math.trunc on a finite number: round toward zero. -/
def jsTrunc (q : ℚ) : Int :=
  q.num.tdiv (q.den : Int)

/-- Numeric value of a list of decimal digit characters. -/
def digitsVal (ds : List Char) : Nat :=
  ds.foldl (fun acc c => acc * 10 + (c.toNat - 48)) 0

/-- Model of String.prototype.trim: strip whitespace from both ends. -/
def jsTrim (s : String) : String :=
  String.mk (((s.toList.dropWhile Char.isWhitespace).reverse.dropWhile
    Char.isWhitespace).reverse)

/-- Model of String.prototype.startsWith. -/
def jsStartsWith (s p : String) : Bool :=
  s.toList.take p.toList.length == p.toList

/-- Model of String.prototype.toUpperCase (ASCII letters; the curated
sentinel is ASCII). -/
def jsToUpper (s : String) : String :=
  String.mk (s.toList.map Char.toUpper)

/-- Fractional decimal digits of rem/den by long division (bounded fuel;
doubles always terminate well inside it). -/
def decimalFracDigits (fuel rem den : Nat) : String :=
  match fuel with
  | 0 => ""
  | fuel' + 1 =>
    if rem = 0 ∨ den = 0 then ""
    else
      let r10 := rem * 10
      toString (r10 / den) ++ decimalFracDigits fuel' (r10 % den) den

/-- Decimal rendering of an exact rational, modelling how JavaScript
prints a finite number. -/
def ratToString (q : ℚ) : String :=
  let sign := if Rat.blt q 0 then "-" else ""
  let n := q.num.natAbs
  let d := q.den
  if n % d = 0 then sign ++ toString (n / d)
  else sign ++ toString (n / d) ++ "." ++ decimalFracDigits 64 (n % d) d

/-- String rendering of a JavaScript number. -/
def jsNumToString : JsNum → String
  | .nan => "NaN"
  | .inf => "Infinity"
  | .ninf => "-Infinity"
  | .val q => ratToString q

mutual

/-- Model of the JavaScript String() conversion. -/
def jsToString : JsValue → String
  | .null => "null"
  | .undefined => "undefined"
  | .bool b => if b then "true" else "false"
  | .num n => jsNumToString n
  | .str s => s
  | .arr xs => jsValueListToString xs
  | .obj _ => "[object Object]"

/-- Array.prototype.toString: elements joined with commas. -/
def jsValueListToString : List JsValue → String
  | [] => ""
  | [x] => jsElementToString x
  | x :: y :: rest => jsElementToString x ++ "," ++ jsValueListToString (y :: rest)

/-- Element rendering inside Array.prototype.toString: null and undefined
become the empty string. -/
def jsElementToString : JsValue → String
  | .null => ""
  | .undefined => ""
  | .bool b => if b then "true" else "false"
  | .num n => jsNumToString n
  | .str s => s
  | .arr xs => jsValueListToString xs
  | .obj _ => "[object Object]"

end

/-- Unsigned decimal numeral: digits, optional fraction, optional
exponent; none when no digit is present or trailing characters remain. -/
def parseUnsignedNumeral (cs : List Char) : Option ℚ :=
  let ip := cs.takeWhile Char.isDigit
  let r1 := cs.drop ip.length
  let fp := match r1 with
    | '.' :: r => r.takeWhile Char.isDigit
    | _ => []
  let r2 := match r1 with
    | '.' :: r => r.drop fp.length
    | _ => r1
  if ip.isEmpty ∧ fp.isEmpty then none
  else
    let mantissa : ℚ := (digitsVal ip : ℚ) + (digitsVal fp : ℚ) / ((10 : ℚ) ^ fp.length)
    match r2 with
    | [] => some mantissa
    | 'e' :: r => parseExponentPart mantissa r
    | 'E' :: r => parseExponentPart mantissa r
    | _ => none
where
  parseExponentPart (m : ℚ) (cs : List Char) : Option ℚ :=
    let neg := match cs with
      | '-' :: _ => true
      | _ => false
    let r := match cs with
      | '+' :: r => r
      | '-' :: r => r
      | r => r
    let ds := r.takeWhile Char.isDigit
    if ds.isEmpty ∨ ¬ (r.drop ds.length).isEmpty then none
    else some (if neg then m / (10 : ℚ) ^ digitsVal ds else m * (10 : ℚ) ^ digitsVal ds)

/-- Model of the ECMAScript ToNumber conversion on strings: trimmed empty
string is 0; decimal numerals and Infinity are recognised; anything else
is NaN (hex, octal and binary literal forms never arise in this pipeline
and are modelled as NaN). -/
def strToNumber (s : String) : JsNum :=
  let t := jsTrim s
  if t = "" then .val 0
  else if t = "Infinity" ∨ t = "+Infinity" then .inf
  else if t = "-Infinity" then .ninf
  else
    match t.toList with
    | '+' :: rest =>
      match parseUnsignedNumeral rest with
      | some q => .val q
      | none => .nan
    | '-' :: rest =>
      match parseUnsignedNumeral rest with
      | some q => .val (-q)
      | none => .nan
    | rest =>
      match parseUnsignedNumeral rest with
      | some q => .val q
      | none => .nan

/-- Model of Number.parseInt(s, 10): skip whitespace, optional sign,
longest decimal digit prefix; none (NaN) when no digit is found. -/
def parseIntJs (s : String) : Option Int :=
  let cs := s.toList.dropWhile Char.isWhitespace
  match cs with
  | '-' :: rest => (parseIntDigits rest).map (fun n => -(n : Int))
  | '+' :: rest => (parseIntDigits rest).map (fun n => (n : Int))
  | rest => (parseIntDigits rest).map (fun n => (n : Int))
where
  parseIntDigits (cs : List Char) : Option Nat :=
    let ds := cs.takeWhile Char.isDigit
    if ds.isEmpty then none else some (digitsVal ds)

/-- Model of the JavaScript Number() coercion. -/
def jsToNumber : JsValue → JsNum
  | .null => .val 0
  | .undefined => .nan
  | .bool b => .val (if b then 1 else 0)
  | .num n => n
  | .str s => strToNumber s
  | .arr xs => strToNumber (jsValueListToString xs)
  | .obj _ => .nan

/-- Escaping of one character inside a JSON string literal. -/
def jsonEscapeChar (c : Char) : String :=
  if c = '"' then "\\\""
  else if c = '\\' then "\\\\"
  else if c = '\n' then "\\n"
  else if c = '\r' then "\\r"
  else if c = '\t' then "\\t"
  else String.singleton c

/-- Quoted JSON string literal. -/
def jsonQuote (s : String) : String :=
  "\"" ++ String.join (s.toList.map jsonEscapeChar) ++ "\""

mutual

/-- Model of JSON.stringify. NaN and the infinities serialise as null;
undefined object values are dropped (a top-level undefined, which
JSON.stringify maps to no string at all, is modelled as null and is never
reached by the modelled callers). -/
def jsonStringify : JsValue → String
  | .null => "null"
  | .undefined => "null"
  | .bool b => if b then "true" else "false"
  | .num (.val q) => ratToString q
  | .num _ => "null"
  | .str s => jsonQuote s
  | .arr xs => "[" ++ jsonStringifyElems xs ++ "]"
  | .obj fs => "\x7b" ++ jsonStringifyFields fs ++ "\x7d"

/-- Array elements of JSON.stringify, comma separated. -/
def jsonStringifyElems : List JsValue → String
  | [] => ""
  | [x] => jsonStringify x
  | x :: y :: rest => jsonStringify x ++ "," ++ jsonStringifyElems (y :: rest)

/-- Object members of JSON.stringify; undefined values are dropped. -/
def jsonStringifyFields : List (String × JsValue) → String
  | [] => ""
  | (k, v) :: rest =>
    match v with
    | .undefined => jsonStringifyFields rest
    | _ =>
      let s := jsonQuote k ++ ":" ++ jsonStringify v
      let restS := jsonStringifyFields rest
      if restS = "" then s else s ++ "," ++ restS

end

/-- JSON whitespace (space, tab, newline, carriage return) skipping. -/
def jsonSkipWs (cs : List Char) : List Char :=
  cs.dropWhile (fun c => c == ' ' || c == '\t' || c == '\n' || c == '\r')

/-- Value of a hexadecimal digit character. -/
def hexDigitVal (c : Char) : Option Nat :=
  if '0' ≤ c ∧ c ≤ '9' then some (c.toNat - 48)
  else if 'a' ≤ c ∧ c ≤ 'f' then some (c.toNat - 87)
  else if 'A' ≤ c ∧ c ≤ 'F' then some (c.toNat - 55)
  else none

/-- Body of a JSON string literal (after the opening quote), with the
standard escapes. -/
def jsonParseStringBody : List Char → String → Option (String × List Char)
  | [], _ => none
  | '"' :: rest, acc => some (acc, rest)
  | '\\' :: '"' :: rest, acc => jsonParseStringBody rest (acc.push '"')
  | '\\' :: '\\' :: rest, acc => jsonParseStringBody rest (acc.push '\\')
  | '\\' :: '/' :: rest, acc => jsonParseStringBody rest (acc.push '/')
  | '\\' :: 'b' :: rest, acc => jsonParseStringBody rest (acc.push (Char.ofNat 8))
  | '\\' :: 'f' :: rest, acc => jsonParseStringBody rest (acc.push (Char.ofNat 12))
  | '\\' :: 'n' :: rest, acc => jsonParseStringBody rest (acc.push '\n')
  | '\\' :: 'r' :: rest, acc => jsonParseStringBody rest (acc.push '\r')
  | '\\' :: 't' :: rest, acc => jsonParseStringBody rest (acc.push '\t')
  | '\\' :: 'u' :: a :: b :: c :: d :: rest, acc =>
    match hexDigitVal a, hexDigitVal b, hexDigitVal c, hexDigitVal d with
    | some x, some y, some z, some w =>
      jsonParseStringBody rest (acc.push (Char.ofNat (((x * 16 + y) * 16 + z) * 16 + w)))
    | _, _, _, _ => none
  | '\\' :: _, _ => none
  | c :: rest, acc => jsonParseStringBody rest (acc.push c)

/-- JSON number literal: sign, integer part without leading zeros,
optional fraction, optional exponent. Returns the value and the rest. -/
def jsonParseNumber (cs : List Char) : Option (ℚ × List Char) :=
  let neg := match cs with
    | '-' :: _ => true
    | _ => false
  let cs1 := match cs with
    | '-' :: r => r
    | r => r
  let ip := cs1.takeWhile Char.isDigit
  if ip.isEmpty then none
  else if ip.length > 1 ∧ ip.headD '0' = '0' then none
  else
    let r1 := cs1.drop ip.length
    let fp := match r1 with
      | '.' :: r => r.takeWhile Char.isDigit
      | _ => []
    let hasDot := match r1 with
      | '.' :: _ => true
      | _ => false
    if hasDot ∧ fp.isEmpty then none
    else
      let r2 := if hasDot then (r1.drop 1).drop fp.length else r1
      let mantissa : ℚ := (digitsVal ip : ℚ) + (digitsVal fp : ℚ) / ((10 : ℚ) ^ fp.length)
      let signed := if neg then -mantissa else mantissa
      match r2 with
      | 'e' :: r => jsonParseExponent signed r
      | 'E' :: r => jsonParseExponent signed r
      | _ => some (signed, r2)
where
  jsonParseExponent (m : ℚ) (cs : List Char) : Option (ℚ × List Char) :=
    let eneg := match cs with
      | '-' :: _ => true
      | _ => false
    let r := match cs with
      | '+' :: r => r
      | '-' :: r => r
      | r => r
    let ds := r.takeWhile Char.isDigit
    if ds.isEmpty then none
    else some (if eneg then m / (10 : ℚ) ^ digitsVal ds else m * (10 : ℚ) ^ digitsVal ds,
               r.drop ds.length)

mutual

/-- Recursive-descent JSON value parser (fuel-indexed). -/
def parseJsonValue : Nat → List Char → Option (JsValue × List Char)
  | 0, _ => none
  | fuel + 1, cs =>
    match jsonSkipWs cs with
    | 'n' :: 'u' :: 'l' :: 'l' :: rest => some (.null, rest)
    | 't' :: 'r' :: 'u' :: 'e' :: rest => some (.bool true, rest)
    | 'f' :: 'a' :: 'l' :: 's' :: 'e' :: rest => some (.bool false, rest)
    | '"' :: rest =>
      match jsonParseStringBody rest "" with
      | some (s, r) => some (.str s, r)
      | none => none
    | '[' :: rest =>
      match jsonSkipWs rest with
      | ']' :: r => some (.arr [], r)
      | other =>
        match parseJsonElems fuel other with
        | some (vs, r) => some (.arr vs, r)
        | none => none
    | '{' :: rest =>
      match jsonSkipWs rest with
      | '}' :: r => some (.obj [], r)
      | other =>
        match parseJsonMembers fuel other with
        | some (fs, r) => some (.obj fs, r)
        | none => none
    | rest =>
      match jsonParseNumber rest with
      | some (q, r) => some (.num (.val q), r)
      | none => none

/-- One-or-more comma separated array elements followed by a closing
bracket. -/
def parseJsonElems : Nat → List Char → Option (List JsValue × List Char)
  | 0, _ => none
  | fuel + 1, cs =>
    match parseJsonValue fuel cs with
    | none => none
    | some (v, r) =>
      match jsonSkipWs r with
      | ',' :: r2 =>
        match parseJsonElems fuel r2 with
        | some (vs, r3) => some (v :: vs, r3)
        | none => none
      | ']' :: r2 => some ([v], r2)
      | _ => none

/-- One-or-more comma separated object members followed by a closing
brace. -/
def parseJsonMembers : Nat → List Char → Option (List (String × JsValue) × List Char)
  | 0, _ => none
  | fuel + 1, cs =>
    match jsonSkipWs cs with
    | '"' :: rest =>
      match jsonParseStringBody rest "" with
      | none => none
      | some (k, r) =>
        match jsonSkipWs r with
        | ':' :: r2 =>
          match parseJsonValue fuel r2 with
          | none => none
          | some (v, r3) =>
            match jsonSkipWs r3 with
            | ',' :: r4 =>
              match parseJsonMembers fuel r4 with
              | some (fs, r5) => some ((k, v) :: fs, r5)
              | none => none
            | '}' :: r4 => some ([(k, v)], r4)
            | _ => none
        | _ => none
    | _ => none

end

/-- Model of JSON.parse: parse one value and require only whitespace to
remain. -/
def jsonParse (s : String) : Option JsValue :=
  match parseJsonValue (2 * s.length + 8) s.toList with
  | some (v, rest) => if (jsonSkipWs rest).isEmpty then some v else none
  | none => none

/-- Model of the regex match /\x7b[\s\S]*\x7d/ used by parseJsonResponse:
the substring from the first opening brace to the last closing brace,
when the latter comes after the former. -/
def braceMatch (s : String) : Option String :=
  let cs := s.toList
  match cs.findIdx? (fun c => c == '{') with
  | none => none
  | some i =>
    match cs.reverse.findIdx? (fun c => c == '}') with
    | none => none
    | some revJ =>
      let j := cs.length - 1 - revJ
      if i < j then some (String.mk ((cs.drop i).take (j - i + 1))) else none

/-- Model of parseJsonResponse (src/offer_curation.ts lines 506-525):
empty text and unrecoverable text map to marker objects with a null score
and an explanatory reason; otherwise the parse of the full text, or of
the first brace-bracketed substring, is returned. -/
def parseJsonResponse (text : String) : JsValue :=
  if text = "" then
    .obj [("score", .null), ("reason", .str "Empty response from model.")]
  else
    match jsonParse text with
    | some v => v
    | none =>
      match braceMatch text with
      | some sub =>
        match jsonParse sub with
        | some v => v
        | none => .obj [("score", .null), ("reason", .str ("Failed to parse JSON: " ++ text))]
      | none => .obj [("score", .null), ("reason", .str ("Failed to parse JSON: " ++ text))]

/-- One per-image metadata record (interface ImageDetail,
src/offer_curation.ts lines 36-44). All fields are optional in the
TypeScript interface. -/
structure ImageDetail where
  url : Option String
  imgType : Option String
  alt : Option String
  imgDescription : Option String
  width : Option JsNum
  height : Option JsNum
  srcTag : Option String
deriving DecidableEq

/-- Candidate image details gathered by the two nested loops of
extractImageDetails (lines 179-219): one primary detail per top-level
entry with a string image_url_host, plus one nested detail per entry of a
nested images array with a string image_url_host; entries without a
usable url are dropped. -/
def collectImageCandidates : List JsValue → List ImageDetail
  | [] => []
  | img :: rest =>
    if isObjectLike img then
      let primaryPart : List ImageDetail :=
        match asString (jsGet img "image_url_host") with
        | some u =>
          if u ≠ "" then
            [{ url := some u,
               imgType := asString (jsGet img "image_type"),
               alt := asString (jsGet img "image_alt"),
               imgDescription := asString (jsGet img "image_desc"),
               width := asNumber (jsGet img "width"),
               height := asNumber (jsGet img "height"),
               srcTag := some "primary" }]
          else []
        | none => []
      let nestedPart : List ImageDetail :=
        match jsGet img "images" with
        | .arr items => collectNestedCandidates items
        | _ => []
      primaryPart ++ nestedPart ++ collectImageCandidates rest
    else collectImageCandidates rest
where
  collectNestedCandidates : List JsValue → List ImageDetail
    | [] => []
    | item :: rest =>
      if isObjectLike item then
        match asString (jsGet item "image_url_host") with
        | some u =>
          if u ≠ "" then
            { url := some u,
              imgType := asString (jsGet item "image_type"),
              alt := asString (jsGet item "image_alt"),
              imgDescription := asString (jsGet item "image_desc"),
              width := asNumber (jsGet item "width"),
              height := asNumber (jsGet item "height"),
              srcTag := some "nested" } :: collectNestedCandidates rest
          else collectNestedCandidates rest
        | none => collectNestedCandidates rest
      else collectNestedCandidates rest

/-- De-duplication loop of extractImageDetails (lines 221-229): keep the
first occurrence of each url, skipping details whose url is falsy
(missing or empty). The seen set is modelled as the list of urls already
kept. -/
def dedupDetails : List ImageDetail → List String → List ImageDetail
  | [], _ => []
  | d :: rest, seen =>
    match d.url with
    | none => dedupDetails rest seen
    | some u =>
      if u = "" ∨ u ∈ seen then dedupDetails rest seen
      else d :: dedupDetails rest (u :: seen)

/-- Model of extractImageDetails (lines 173-232): a non-array images
field yields no details; otherwise collect primary and nested candidates
and de-duplicate by url. -/
def extractImageDetails (images : JsValue) : List ImageDetail :=
  match images with
  | .arr items => dedupDetails (collectImageCandidates items) []
  | _ => []

/-- Candidate list feeding the de-duplication, lifted to the raw images
value (empty for a non-array). -/
def extractCandidates (images : JsValue) : List ImageDetail :=
  match images with
  | .arr items => collectImageCandidates items
  | _ => []

/-- Block pushed for one group inside renderSections (lines 250-264):
none when the group is falsy or its trimmed content is empty, else the
content prefixed by a level-3 heading when the trimmed name is
non-empty. -/
def renderGroupBlock (group : JsValue) : Option String :=
  if jsTruthy group then
    let groupName := jsTrim (jsToString (jsOr (jsGet group "group_name") (.str "")))
    let content := jsTrim (jsToString (jsOr (jsGet group "content") (.str "")))
    if content = "" then none
    else if groupName ≠ "" then some ("### " ++ groupName ++ "\n" ++ content)
    else some content
  else none

/-- Chunk pushed for one section inside renderSections (lines 241-275):
none for non-objects and for sections whose joined body is empty, else
the body prefixed by a level-2 heading when the trimmed section name is
non-empty. -/
def renderSectionChunk (sectionValue : JsValue) : Option String :=
  if isObjectLike sectionValue then
    let sectionName := jsTrim (jsToString (jsOr (jsGet sectionValue "section_name") (.str "")))
    let groups := match jsGet sectionValue "groups" with
      | .arr gs => gs
      | _ => []
    let groupBlocks := groups.filterMap renderGroupBlock
    let body := String.intercalate "\n\n" (groupBlocks.filter (fun s => s != ""))
    if body = "" then none
    else if sectionName ≠ "" then some ("## " ++ sectionName ++ "\n" ++ body)
    else some body
  else none

/-- Model of renderSections (lines 234-278): non-array input renders to
the empty string; otherwise the surviving section chunks are joined with
blank lines. -/
def renderSections (sectionInfo : JsValue) : String :=
  match sectionInfo with
  | .arr sections =>
    String.intercalate "\n\n" ((sections.filterMap renderSectionChunk).filter (fun s => s != ""))
  | _ => ""

/-- One package summary (interface PackageSummary, lines 56-60). -/
structure PackageSummary where
  package_id : JsValue
  package_name : Option String
  sections_markdown : String

/-- One normalized offer (interface StructuredOffer, lines 62-80). -/
structure StructuredOffer where
  source_path : String
  activity_id : JsValue
  title : Option String
  subtitle : Option String
  what_we_love : Option String
  location : JsValue
  address : JsValue
  category : Option String
  category_detail : JsValue
  description_markdown : String
  packages : List PackageSummary
  images : List String
  image_details : List ImageDetail
  city : Option String
  country : Option String
  status : JsValue
  raw : JsValue

/-- Model of structureActivity (lines 383-428). -/
def structureActivity (activity : JsValue) (sourcePath : String) : StructuredOffer :=
  let packagesRaw := match jsGet activity "package_list" with
    | .arr xs => xs
    | _ => []
  let packages := packagesRaw.filterMap (fun item =>
    if isObjectLike item then
      some { package_id := jsGet item "package_id",
             package_name := asString (jsGet item "package_name"),
             sections_markdown := renderSections (jsGet item "section_info") }
    else (none : Option PackageSummary))
  let cityInfo := match jsGet activity "city_info" with
    | .arr xs => xs
    | _ => []
  let primaryCity := jsOr (cityInfo.headD .undefined) (.obj [])
  let categoryInfo := jsOr (jsGet activity "category_info") (.obj [])
  let status := jsOr (jsGet activity "status")
    (jsOr (jsGet activity "curation_status")
      (jsOr (jsGet categoryInfo "curation_status") .null))
  let imageDetails := extractImageDetails (jsGet activity "images")
  { source_path := sourcePath,
    activity_id := jsGet activity "activity_id",
    title := asString (jsGet activity "title"),
    subtitle := asString (jsGet activity "subtitle"),
    what_we_love := asString (jsGet activity "what_we_love"),
    location := jsGet activity "location",
    address := jsGet activity "address_desc_multilang",
    category := asString (jsGet categoryInfo "sub_category_name"),
    category_detail := categoryInfo,
    description_markdown := renderSections (jsGet activity "section_info"),
    packages := packages,
    images := (imageDetails.map ImageDetail.url).filterMap (fun o =>
      match o with
      | some u => if u ≠ "" then some u else none
      | none => none),
    image_details := imageDetails,
    city := asString (jsGet primaryCity "city_name"),
    country := asString (jsGet primaryCity "country_name"),
    status := status,
    raw := activity }

/-- MAX_IMAGES_TO_REVIEW (line 24). -/
def MAX_IMAGES_TO_REVIEW : Nat := 8

/-- Image details listed in the prompt: the slice of the first
MAX_IMAGES_TO_REVIEW entries (buildOfferPrompt, line 466). -/
def promptImageDetails (offer : StructuredOffer) : List ImageDetail :=
  offer.image_details.take MAX_IMAGES_TO_REVIEW

/-- Image urls attached to the request (gradeOffer, lines 542-546): the
urls of the first MAX_IMAGES_TO_REVIEW details, dropping falsy urls; each
becomes one input_image content part. -/
def imagePayload (offer : StructuredOffer) : List String :=
  ((offer.image_details.take MAX_IMAGES_TO_REVIEW).map ImageDetail.url).filterMap (fun o =>
    match o with
    | some u => if u ≠ "" then some u else none
    | none => none)

/-- One evaluation outcome (interface GradingResult, lines 82-92). -/
structure GradingResult where
  activity_id : JsValue
  score : Option JsNum
  reason : String
  categories : List String
  target_audiences : List String
  hero_image_index : Option Int
  hero_image_url : Option String
  hero_image_reason : String
  response_id : Option String

/-- Model of normaliseStringList (lines 527-535): arrays keep the
stringified non-null elements that are non-empty; null, undefined and the
empty string yield the empty list; any other scalar is wrapped. -/
def normaliseStringList (value : JsValue) : List String :=
  match value with
  | .arr items => items.filterMap (fun item =>
      match item with
      | .null => none
      | .undefined => none
      | v =>
        let s := jsToString v
        if s = "" then none else some s)
  | .null => []
  | .undefined => []
  | .str s => if s = "" then [] else [s]
  | v => [jsToString v]

/-- Index coercion of gradeOffer (lines 592-599): a finite number is
truncated; a non-blank string goes through parseInt; everything else is
null. -/
def coerceHeroIndex (raw : JsValue) : Option Int :=
  match raw with
  | .num (.val q) => some (jsTrunc q)
  | .num _ => none
  | .str s => if jsTrim s ≠ "" then parseIntJs (jsTrim s) else none
  | _ => none

/-- Url coercion of gradeOffer (lines 601-604): a truthy value is
stringified and trimmed, and an empty trimmed string becomes null. -/
def coerceHeroUrl (raw : JsValue) : Option String :=
  if jsTruthy raw then
    let s := jsTrim (jsToString raw)
    if s = "" then none else some s
  else none

/-- Truthiness of a string-or-null JavaScript variable. -/
def strTruthy : Option String → Bool
  | some u => u != ""
  | none => false

/-- Model of Array.prototype.findIndex: position of the first element
satisfying the predicate (the source checks the returned position for
-1, modelled here as none). -/
def findIndexJs (p : ImageDetail → Bool) : List ImageDetail → Option Nat
  | [] => none
  | x :: xs => if p x then some 0 else (findIndexJs p xs).map (· + 1)

/-- Array index access arr[i] for a possibly negative integer index. -/
def jsIndex (l : List ImageDetail) (i : Int) : Option ImageDetail :=
  if i < 0 then none else l.get? i.toNat

/-- Range check and position preference of gradeOffer (lines 606-613):
an index in range 1..count keeps the index and prefers the url at that
position when truthy; an out-of-range index becomes null. -/
def heroStep1 (cand : List ImageDetail) (idx0 : Option Int) (url0 : Option String) :
    Option Int × Option String :=
  match idx0 with
  | none => (none, url0)
  | some i =>
    if 1 ≤ i ∧ i ≤ (cand.length : Int) then
      let candidate := (jsIndex cand (i - 1)).bind ImageDetail.url
      (some i, if strTruthy candidate then candidate else url0)
    else (none, url0)

/-- Attachment scheme discard of gradeOffer (lines 615-617). -/
def heroStepAttachment (url1 : Option String) : Option String :=
  if strTruthy url1 ∧ jsStartsWith (url1.getD "") "attachment://" then none else url1

/-- Url recovery from a surviving index in gradeOffer (lines 619-624). -/
def heroStepRecover (cand : List ImageDetail) (idx1 : Option Int)
    (url2 : Option String) : Option String :=
  if strTruthy url2 then url2
  else
    match idx1 with
    | some i =>
      let candidate := (jsIndex cand (i - 1)).bind ImageDetail.url
      if strTruthy candidate then candidate else url2
    | none => url2

/-- Index backfill from a surviving url in gradeOffer (lines 626-631). -/
def heroStepBackfill (cand : List ImageDetail) (idx1 : Option Int)
    (url3 : Option String) : Option Int :=
  match idx1 with
  | some i => some i
  | none =>
    if strTruthy url3 then
      match findIndexJs (fun d => d.url == url3) cand with
      | some k => some ((k : Int) + 1)
      | none => none
    else none

/-- Hero-image reconciliation of gradeOffer (lines 606-631) on the
already-coerced index and url: an in-range index prefers the url at that
position; an out-of-range index is discarded; attachment scheme urls are
discarded; a missing url is recovered from a surviving index; a missing
index is recovered from the first matching url. -/
def reconcileHero (candidateImages : List ImageDetail) (idx0 : Option Int)
    (url0 : Option String) : Option Int × Option String :=
  let step1 := heroStep1 candidateImages idx0 url0
  let url2 := heroStepAttachment step1.2
  let url3 := heroStepRecover candidateImages step1.1 url2
  (heroStepBackfill candidateImages step1.1 url3, url3)

/-- Score normalisation of gradeOffer (lines 640-645): coerce with
Number(); when the coercion is not NaN, clamp to the closed range
0 to 5. -/
def normaliseScore (scoreRaw : JsValue) : Option JsNum :=
  let numericScore := jsToNumber scoreRaw
  if numericScore = JsNum.nan then none
  else some (jsMin (.val 5) (jsMax (.val 0) numericScore))

/-- Result assembly of gradeOffer on the parsed reply (lines 589-660):
category and audience normalisation, hero reconciliation, hero reason,
score clamping and reason fallback. -/
def finalizeGrading (activityId : JsValue) (candidateImages : List ImageDetail)
    (parsed : JsValue) (responseId : Option String) : GradingResult :=
  let categories := normaliseStringList (jsGet parsed "categories")
  let targetAudiences := normaliseStringList (jsGet parsed "target_audiences")
  let hero := reconcileHero candidateImages
    (coerceHeroIndex (jsGet parsed "hero_image_index"))
    (coerceHeroUrl (jsGet parsed "hero_image_url"))
  let heroImageReason := match jsGet parsed "hero_image_reason" with
    | .null => ""
    | .undefined => ""
    | .str s => jsTrim s
    | v => jsonStringify v
  let score := normaliseScore (jsGet parsed "score")
  let reasonValue := match jsGet parsed "reason" with
    | .null => parsed
    | .undefined => parsed
    | v => v
  let reason := match reasonValue with
    | .str s => s
    | v => jsonStringify v
  { activity_id := activityId,
    score := score,
    reason := reason,
    categories := categories,
    target_audiences := targetAudiences,
    hero_image_index := hero.1,
    hero_image_url := hero.2,
    hero_image_reason := heroImageReason,
    response_id := responseId }

/-- The activity_id recorded in the result: offer.activity_id with
undefined coalesced to null (lines 651 and 577). -/
def jsNullishToNull : JsValue → JsValue
  | .undefined => .null
  | .null => .null
  | v => v

/-- Success path of gradeOffer after the service call (lines 571-660):
record the request id, parse the reply text and finalize the result from
the full image-detail list of the offer. -/
def gradeOfferResponse (offer : StructuredOffer) (responseText : String)
    (responseId : Option String) : GradingResult :=
  let candidateImages := offer.image_details
  let parsed := parseJsonResponse responseText
  finalizeGrading (jsNullishToNull offer.activity_id) candidateImages parsed responseId

/-- Identifier string used by the final sort (lines 688-689):
String(activity_id ?? ""). -/
def idStr (r : GradingResult) : String :=
  jsToString (match r.activity_id with
    | .null => .str ""
    | .undefined => .str ""
    | v => v)

/-- Sort key of a result: identifier string then reason. -/
def resultKey (r : GradingResult) : String × String :=
  (idStr r, r.reason)

/-- Lexicographic code-point comparison of character lists, the model of
the localeCompare ordering used by the final sort. -/
def listLexLt : List Char → List Char → Bool
  | [], [] => false
  | [], _ :: _ => true
  | _ :: _, [] => false
  | a :: as, b :: bs => if a < b then true else if a = b then listLexLt as bs else false

/-- Strict lexicographic comparison of strings. -/
def strLt (a b : String) : Bool :=
  listLexLt a.toList b.toList

/-- Comparator order of the final sort (lines 687-694): identifier
strings lexicographically, ties broken by reason (localeCompare modelled
as code-point lexicographic comparison); a is at most b when its
identifier is smaller, or the identifiers agree and its reason is not
greater. -/
def resultLe (a b : GradingResult) : Prop :=
  strLt (idStr a) (idStr b) = true ∨
    (idStr a = idStr b ∧ strLt b.reason a.reason = false)

instance (a b : GradingResult) : Decidable (resultLe a b) :=
  inferInstanceAs (Decidable (strLt (idStr a) (idStr b) = true ∨
    (idStr a = idStr b ∧ strLt b.reason a.reason = false)))

/-- Stable insertion of one result into an already sorted list: the new
element goes after every existing element it does not strictly precede,
matching the stable Array.prototype.sort of ES2019. -/
def insertResult (r : GradingResult) : List GradingResult → List GradingResult
  | [] => [r]
  | x :: xs => if resultLe x r then x :: insertResult r xs else r :: x :: xs

/-- Model of the final sort of gradeOffers (lines 687-694), as a stable
insertion sort over the arrival list. -/
def sortResults (l : List GradingResult) : List GradingResult :=
  l.foldl (fun acc r => insertResult r acc) []

/-- Dataflow model of gradeOffers (lines 664-697): an empty offer list
returns before any grading call; otherwise every queued offer is graded
exactly once, results arrive in an unspecified order (the arrival
parameter, a permutation of the per-offer results) and the arrivals are
sorted. -/
def gradeOffersModel (_grade : StructuredOffer → GradingResult)
    (offers : List StructuredOffer) (arrival : List GradingResult) : List GradingResult :=
  if offers.isEmpty then [] else sortResults arrival

/-- Offers for which gradeOffers performs a grading-service call: none
when the list is empty (early return, lines 665-667), else each queued
offer exactly once (the workers drain the queue, lines 672-685). -/
def gradeOffersCalls (offers : List StructuredOffer) : List StructuredOffer :=
  if offers.isEmpty then [] else offers

/-- Status label used by the eligibility filter of main (lines 759-762):
String(offer.status || "").toUpperCase(). -/
def offerStatusLabel (offer : StructuredOffer) : String :=
  jsToUpper (jsToString (jsOr offer.status (.str "")))

/-- Eligibility filter of main (lines 759-762): offers whose status label
differs from the curated sentinel. -/
def offersToGrade (offers : List StructuredOffer) : List StructuredOffer :=
  offers.filter (fun o => offerStatusLabel o != "CURATED")

/-- One group of the section tree as the specification describes it: a
name (empty when the group is unnamed) and free text content. -/
structure SpecGroup where
  name : String
  content : String

/-- One section of the section tree as the specification describes it. -/
structure SpecSection where
  name : String
  groups : List SpecGroup

/-- Renderer following the specification words for the Description
Renderer: drop groups with empty content; prefix named surviving groups
with a level-3 heading, include unnamed ones bare; join surviving groups
of a section with a blank line; drop sections whose joined body is empty;
prefix named surviving sections with a level-2 heading, include unnamed
ones bare; join surviving sections with a blank line. -/
def renderSectionsSpec (sections : List SpecSection) : String :=
  String.intercalate "\n\n" (((sections.map (fun sec =>
    let body := String.intercalate "\n\n"
      ((sec.groups.filter (fun g => g.content ≠ "")).map (fun g =>
        if g.name ≠ "" then "### " ++ g.name ++ "\n" ++ g.content else g.content))
    if body = "" then ""
    else if sec.name ≠ "" then "## " ++ sec.name ++ "\n" ++ body
    else body))).filter (fun s => s ≠ ""))

/-- JSON encoding of one specification group in the shape the raw records
use. -/
def encodeGroup (g : SpecGroup) : JsValue :=
  .obj [("group_name", .str g.name), ("content", .str g.content)]

/-- JSON encoding of one specification section in the shape the raw
records use. -/
def encodeSection (s : SpecSection) : JsValue :=
  .obj [("section_name", .str s.name), ("groups", .arr (s.groups.map encodeGroup))]

/-- JSON encoding of a section sequence in the shape the raw records
use. -/
def encodeSections (l : List SpecSection) : JsValue :=
  .arr (l.map encodeSection)

/-- Image detail carrying only a url, as produced for a raw image entry
with no optional metadata. -/
def plainDetail (u : String) : ImageDetail :=
  { url := some u, imgType := none, alt := none, imgDescription := none,
    width := none, height := none, srcTag := some "primary" }

/-- A minimal structured offer used to instantiate theorems. -/
def baseOffer : StructuredOffer :=
  { source_path := "offers/example.json",
    activity_id := .str "A1",
    title := some "Example",
    subtitle := none,
    what_we_love := none,
    location := .undefined,
    address := .undefined,
    category := none,
    category_detail := .obj [],
    description_markdown := "",
    packages := [],
    images := [],
    image_details := [],
    city := none,
    country := none,
    status := .null,
    raw := .obj [] }

/-- A grading result built from an identifier, a reason and a hero url,
used to instantiate the ordering theorems. -/
def plainResult (id reason : String) (heroUrl : Option String) : GradingResult :=
  { activity_id := .str id,
    score := none,
    reason := reason,
    categories := [],
    target_audiences := [],
    hero_image_index := none,
    hero_image_url := heroUrl,
    hero_image_reason := "",
    response_id := none }

/-- An offer with nine distinct image details, more than the 8-image
prompt slice. -/
def nineImageOffer : StructuredOffer :=
  { baseOffer with image_details :=
      [plainDetail "https://img/1", plainDetail "https://img/2", plainDetail "https://img/3",
       plainDetail "https://img/4", plainDetail "https://img/5", plainDetail "https://img/6",
       plainDetail "https://img/7", plainDetail "https://img/8", plainDetail "https://img/9"] }

/-- An offer whose status label is the curated sentinel up to case. -/
def curatedOffer : StructuredOffer :=
  { baseOffer with status := .str "Curated" }

/-- Two distinct results sharing the identifier and the reason. -/
def dupResultA : GradingResult :=
  plainResult "A1" "same reason" (some "https://a")

/-- Second of the two distinct results sharing the identifier and the
reason. -/
def dupResultB : GradingResult :=
  plainResult "A1" "same reason" (some "https://b")

/-- A result with a key distinct from keyedResultB. -/
def keyedResultA : GradingResult :=
  plainResult "A1" "reason a" none

/-- A result with a key distinct from keyedResultA. -/
def keyedResultB : GradingResult :=
  plainResult "B1" "reason b" none

/-- A section sequence exercising named and unnamed sections and groups
and an empty-content group. -/
def sampleSections : List SpecSection :=
  [{ name := "Overview",
     groups := [{ name := "", content := "Great trip" },
                { name := "Details", content := "" }] },
   { name := "",
     groups := [{ name := "Tips", content := "Bring water" }] }]

/-- A raw activity value with a duplicated image url across the primary
and nested levels. -/
def sampleRawActivity : JsValue :=
  .obj [("activity_id", .str "A1"),
        ("images", .arr [
          .obj [("image_url_host", .str "https://img/1"),
                ("images", .arr [.obj [("image_url_host", .str "https://img/2")]])],
          .obj [("image_url_host", .str "https://img/1")]])]

/-- Present-and-non-empty urls are exactly those with non-empty getD. -/
theorem getD_ne_empty_iff (o : Option String) :
    o.getD "" ≠ "" ↔ ∃ u, o = some u ∧ u ≠ "" := by
  cases o <;> simp

/-- The position returned by findIndexJs carries a witness satisfying the
predicate, and every earlier position fails it. -/
theorem findIndexJs_some {p : ImageDetail → Bool} {l : List ImageDetail} {k : Nat}
    (h : findIndexJs p l = some k) :
    ∃ a, l.get? k = some a ∧ p a = true ∧
      ∀ j, j < k → ∀ b, l.get? j = some b → p b = false := by
  induction l generalizing k with
  | nil => simp [findIndexJs] at h
  | cons x xs ih =>
    by_cases hp : p x
    · simp [findIndexJs, hp] at h
      subst h
      exact ⟨x, rfl, hp, by omega⟩
    · simp [findIndexJs, hp] at h
      obtain ⟨k', hk', rfl⟩ := h
      obtain ⟨a, ha, hpa, hmin⟩ := ih hk'
      refine ⟨a, by simpa using ha, hpa, ?_⟩
      intro j hj b hb
      cases j with
      | zero =>
        simp at hb
        subst hb
        simpa using hp
      | succ j' => exact hmin j' (by omega) b (by simpa using hb)

/-- An in-range index with a non-empty url at its position reconciles to
that index and that url, whatever url the service supplied. -/
theorem reconcileHero_valid_idx (cand : List ImageDetail) (i : Int) (url0 : Option String)
    (hu : ∀ d ∈ cand, d.url.getD "" ≠ "") (h1 : 1 ≤ i) (h2 : i ≤ (cand.length : Int)) :
    ∃ d, cand.get? (i - 1).toNat = some d ∧
      reconcileHero cand (some i) url0 = (some i, d.url) := by
  have hk : (i - 1).toNat < cand.length := by omega
  have hget : cand.get? (i - 1).toNat = some (cand.get ⟨(i - 1).toNat, hk⟩) :=
    List.get?_eq_get hk
  have hmem : cand.get ⟨(i - 1).toNat, hk⟩ ∈ cand := List.get_mem cand _ hk
  obtain ⟨u, hu1, hu2⟩ := (getD_ne_empty_iff _).mp (hu _ hmem)
  have hji : jsIndex cand (i - 1) = some (cand.get ⟨(i - 1).toNat, hk⟩) := by
    unfold jsIndex
    rw [if_neg (by omega : ¬ i - 1 < 0)]
    exact hget
  have hcand : (jsIndex cand (i - 1)).bind ImageDetail.url = some u := by
    rw [hji]
    simpa using hu1
  refine ⟨cand.get ⟨(i - 1).toNat, hk⟩, hget, ?_⟩
  have hstep1 : heroStep1 cand (some i) url0 = (some i, some u) := by
    simp only [heroStep1]
    rw [if_pos ⟨h1, h2⟩]
    simp [hcand, strTruthy, hu2]
  have hurl3 : heroStepRecover cand (some i) (heroStepAttachment (some u)) = some u := by
    by_cases hatt : jsStartsWith u "attachment://" = true
    · have ha : heroStepAttachment (some u) = none := by
        simp [heroStepAttachment, strTruthy, hu2, hatt]
      rw [ha]
      simp [heroStepRecover, strTruthy, hcand, hu2]
    · have ha : heroStepAttachment (some u) = some u := by
        simp [heroStepAttachment, strTruthy, hu2, hatt]
      rw [ha]
      simp [heroStepRecover, strTruthy, hu2]
  rw [hu1]
  simp [reconcileHero, hstep1, hurl3, heroStepBackfill]

/-- An index that is absent or out of range leaves the first step with a
null index and the service url. -/
theorem heroStep1_invalid (cand : List ImageDetail) (idx0 : Option Int)
    (url0 : Option String)
    (h : ∀ i, idx0 = some i → ¬(1 ≤ i ∧ i ≤ (cand.length : Int))) :
    heroStep1 cand idx0 url0 = (none, url0) := by
  cases idx0 with
  | none => rfl
  | some i => simp [heroStep1, h i rfl]

/-- With a null index after the first step, a surviving non-attachment
url that matches position k backfills the index to k + 1. -/
theorem reconcileHero_url_only (cand : List ImageDetail) (idx0 : Option Int)
    (u : String) (k : Nat)
    (hinv : ∀ i, idx0 = some i → ¬(1 ≤ i ∧ i ≤ (cand.length : Int)))
    (hne : u ≠ "") (hatt : ¬ jsStartsWith u "attachment://" = true)
    (hfind : findIndexJs (fun d => d.url == some u) cand = some k) :
    reconcileHero cand idx0 (some u) = (some ((k : Int) + 1), some u) := by
  simp [reconcileHero, heroStep1_invalid cand idx0 (some u) hinv, heroStepAttachment,
    heroStepRecover, heroStepBackfill, strTruthy, hne, hatt, hfind]

/-- If the reconciled index is present then it is in range and the
reconciled url is the url of the detail at that 1-based position. -/
theorem reconcileHero_index_sound (cand : List ImageDetail) (idx0 : Option Int)
    (url0 : Option String) (hu : ∀ d ∈ cand, d.url.getD "" ≠ "") (j : Int)
    (hj : (reconcileHero cand idx0 url0).1 = some j) :
    1 ≤ j ∧ j ≤ (cand.length : Int) ∧
      ∃ d, cand.get? (j - 1).toNat = some d ∧
        (reconcileHero cand idx0 url0).2 = d.url := by
  by_cases hvalid : ∃ i, idx0 = some i ∧ 1 ≤ i ∧ i ≤ (cand.length : Int)
  · obtain ⟨i, rfl, h1, h2⟩ := hvalid
    obtain ⟨d, hd, heq⟩ := reconcileHero_valid_idx cand i url0 hu h1 h2
    rw [heq] at hj ⊢
    simp at hj
    subst hj
    exact ⟨h1, h2, d, hd, rfl⟩
  · have hinv : ∀ i, idx0 = some i → ¬(1 ≤ i ∧ i ≤ (cand.length : Int)) := by
      intro i hi hrange
      exact hvalid ⟨i, hi, hrange⟩
    have hstep1 := heroStep1_invalid cand idx0 url0 hinv
    have hrec : heroStepRecover cand none (heroStepAttachment url0) =
        heroStepAttachment url0 := by
      unfold heroStepRecover
      by_cases ht : strTruthy (heroStepAttachment url0) = true <;> simp [ht]
    have hrepr : reconcileHero cand idx0 url0 =
        (heroStepBackfill cand none (heroStepAttachment url0), heroStepAttachment url0) := by
      simp [reconcileHero, hstep1, hrec]
    rw [hrepr] at hj ⊢
    unfold heroStepBackfill at hj
    by_cases ht : strTruthy (heroStepAttachment url0) = true
    · rw [if_pos ht] at hj
      cases hfind : findIndexJs (fun d => d.url == heroStepAttachment url0) cand with
      | none => rw [hfind] at hj; simp at hj
      | some k =>
        rw [hfind] at hj
        simp at hj
        obtain ⟨a, ha, hpa, _⟩ := findIndexJs_some hfind
        have hk : k < cand.length := (List.get?_eq_some.mp ha).1
        have haurl : a.url = heroStepAttachment url0 := by
          simpa using hpa
        subst hj
        refine ⟨by omega, by omega, a, ?_, haurl.symm⟩
        have hkt : ((k : Int) + 1 - 1).toNat = k := by omega
        rw [hkt]
        exact ha
    · rw [if_neg ht] at hj
      simp at hj

/-- A successful jsIndex access returns a member of the list. -/
theorem jsIndex_mem {cand : List ImageDetail} {i : Int} {d : ImageDetail}
    (h : jsIndex cand i = some d) : d ∈ cand := by
  unfold jsIndex at h
  split at h
  · exact absurd h (by simp)
  · exact List.get?_mem h

/-- A coerced hero url is never the empty string. -/
theorem coerceHeroUrl_some {raw : JsValue} {u : String}
    (h : coerceHeroUrl raw = some u) : u ≠ "" := by
  unfold coerceHeroUrl at h
  split at h
  · by_cases he : jsTrim (jsToString raw) = ""
    · simp [he] at h
    · simp [he] at h
      subst h
      exact he
  · exact absurd h (by simp)

/-- An out-of-range or absent coerced index makes reconciliation behave
exactly as with no index at all. -/
theorem reconcileHero_invalid_idx (cand : List ImageDetail) (idx0 : Option Int)
    (url0 : Option String)
    (hinv : ∀ i, idx0 = some i → ¬(1 ≤ i ∧ i ≤ (cand.length : Int))) :
    reconcileHero cand idx0 url0 = reconcileHero cand none url0 := by
  unfold reconcileHero
  rw [heroStep1_invalid cand idx0 url0 hinv]
  rfl

/-- Every url reconciliation can output either survives the attachment
filter, is read out of the offer image list, or is empty; with an
attachment-free image list the output never carries the attachment
scheme. -/
theorem reconcileHero_url_clean (cand : List ImageDetail) (idx0 : Option Int)
    (url0 : Option String)
    (hclean : ∀ d ∈ cand, jsStartsWith (d.url.getD "") "attachment://" = false)
    (u : String) (hu : (reconcileHero cand idx0 url0).2 = some u) :
    jsStartsWith u "attachment://" = false := by
  have hrepr : (reconcileHero cand idx0 url0).2 =
      heroStepRecover cand (heroStep1 cand idx0 url0).1
        (heroStepAttachment (heroStep1 cand idx0 url0).2) := rfl
  rw [hrepr] at hu
  unfold heroStepRecover at hu
  by_cases ht : strTruthy (heroStepAttachment (heroStep1 cand idx0 url0).2) = true
  · rw [if_pos ht] at hu
    unfold heroStepAttachment at hu ht
    by_cases hc : strTruthy (heroStep1 cand idx0 url0).2 = true ∧
        jsStartsWith (((heroStep1 cand idx0 url0).2).getD "") "attachment://" = true
    · rw [if_pos hc] at ht
      simp [strTruthy] at ht
    · rw [if_neg hc] at hu ht
      rw [hu] at hc ht
      simp [strTruthy] at ht
      simp [strTruthy, ht] at hc
      simpa using hc
  · rw [if_neg ht] at hu
    cases hidx : (heroStep1 cand idx0 url0).1 with
    | none =>
      rw [hidx] at hu
      have hu' : heroStepAttachment (heroStep1 cand idx0 url0).2 = some u := hu
      rw [hu'] at ht
      have : u = "" := by simpa [strTruthy] using ht
      subst this
      decide
    | some i =>
      rw [hidx] at hu
      have hu' : (if strTruthy ((jsIndex cand (i - 1)).bind ImageDetail.url) = true then
          (jsIndex cand (i - 1)).bind ImageDetail.url
        else heroStepAttachment (heroStep1 cand idx0 url0).2) = some u := hu
      by_cases hcand : strTruthy ((jsIndex cand (i - 1)).bind ImageDetail.url) = true
      · rw [if_pos hcand] at hu'
        cases hji : jsIndex cand (i - 1) with
        | none => rw [hji] at hu'; exact absurd hu' (by simp)
        | some d =>
          rw [hji] at hu'
          simp at hu'
          have hmem := jsIndex_mem hji
          have := hclean d hmem
          rwa [hu'] at this
      · rw [if_neg hcand] at hu'
        rw [hu'] at ht
        have : u = "" := by simpa [strTruthy] using ht
        subst this
        decide

/-- The hero index field of finalizeGrading is the first component of
the reconciliation. -/
theorem finalizeGrading_hero_index (activityId : JsValue) (cand : List ImageDetail)
    (parsed : JsValue) (responseId : Option String) :
    (finalizeGrading activityId cand parsed responseId).hero_image_index =
      (reconcileHero cand (coerceHeroIndex (jsGet parsed "hero_image_index"))
        (coerceHeroUrl (jsGet parsed "hero_image_url"))).1 := rfl

/-- The hero url field of finalizeGrading is the second component of the
reconciliation. -/
theorem finalizeGrading_hero_url (activityId : JsValue) (cand : List ImageDetail)
    (parsed : JsValue) (responseId : Option String) :
    (finalizeGrading activityId cand parsed responseId).hero_image_url =
      (reconcileHero cand (coerceHeroIndex (jsGet parsed "hero_image_index"))
        (coerceHeroUrl (jsGet parsed "hero_image_url"))).2 := rfl

/-- C1 counterexample: with one image and the reply index 9 (out of range)
plus a url equal to that image, the reconciled result has a PRESENT
hero-image index (the out-of-range index is discarded, but the surviving
url backfills index 1), refuting the clause that an out-of-range service
index leaves the index absent in the result. -/
theorem c1_out_of_range_index_reinstated :
    (finalizeGrading (.str "A1") [plainDetail "https://img/1"]
        (.obj [("hero_image_index", .num (.val 9)),
               ("hero_image_url", .str "https://img/1")]) none).hero_image_index =
      some 1 := by decide

/-- C1 (amended): whenever the offer image details all carry non-empty
urls, a present reconciled hero-image index is in range 1..count and the
reconciled hero url equals the url at that 1-based position, whatever url
the service supplied; and an out-of-range coerced index is discarded,
after which the url is handled independently exactly as if no index had
been returned (which can re-derive an index from a url match). -/
theorem c1_hero_index_url_consistent (activityId : JsValue) (cand : List ImageDetail)
    (parsed : JsValue) (responseId : Option String)
    (hu : ∀ d ∈ cand, d.url.getD "" ≠ "") :
    (∀ j : Int,
      (finalizeGrading activityId cand parsed responseId).hero_image_index = some j →
      1 ≤ j ∧ j ≤ (cand.length : Int) ∧
        ∃ d, cand.get? (j - 1).toNat = some d ∧
          (finalizeGrading activityId cand parsed responseId).hero_image_url = d.url) ∧
    (∀ i : Int, coerceHeroIndex (jsGet parsed "hero_image_index") = some i →
      ¬(1 ≤ i ∧ i ≤ (cand.length : Int)) →
      ((finalizeGrading activityId cand parsed responseId).hero_image_index,
        (finalizeGrading activityId cand parsed responseId).hero_image_url) =
        reconcileHero cand none (coerceHeroUrl (jsGet parsed "hero_image_url"))) := by
  constructor
  · intro j hj
    rw [finalizeGrading_hero_index] at hj
    rw [finalizeGrading_hero_url]
    exact reconcileHero_index_sound cand _ _ hu j hj
  · intro i hi hrange
    have hinv : ∀ i', coerceHeroIndex (jsGet parsed "hero_image_index") = some i' →
        ¬(1 ≤ i' ∧ i' ≤ (cand.length : Int)) := by
      intro i' hi'
      rw [hi] at hi'
      have heq := Option.some.inj hi'
      subst heq
      exact hrange
    rw [finalizeGrading_hero_index, finalizeGrading_hero_url]
    rw [reconcileHero_invalid_idx cand _ _ hinv]

/-- C1 witness: a valid index 2 on a two-image offer is kept and resolves
the url from position 2. -/
theorem c1_hero_index_url_consistent_witness :
    (∀ d ∈ [plainDetail "https://img/1", plainDetail "https://img/2"], d.url.getD "" ≠ "") ∧
    (finalizeGrading (.str "A1") [plainDetail "https://img/1", plainDetail "https://img/2"]
        (.obj [("hero_image_index", .num (.val 2))]) none).hero_image_index = some 2 ∧
    (1 ≤ (2 : Int) ∧
      (2 : Int) ≤ (([plainDetail "https://img/1", plainDetail "https://img/2"] :
        List ImageDetail).length : Int) ∧
      ∃ d, ([plainDetail "https://img/1", plainDetail "https://img/2"] :
          List ImageDetail).get? ((2 : Int) - 1).toNat = some d ∧
        (finalizeGrading (.str "A1") [plainDetail "https://img/1", plainDetail "https://img/2"]
          (.obj [("hero_image_index", .num (.val 2))]) none).hero_image_url = d.url) :=
  ⟨by decide, by decide,
    (c1_hero_index_url_consistent (.str "A1")
      [plainDetail "https://img/1", plainDetail "https://img/2"]
      (.obj [("hero_image_index", .num (.val 2))]) none (by decide)).1 2 (by decide)⟩

/-- C3 counterexample: when the offer image list itself carries an
attachment-scheme url and the reply names it by index, the final hero url
does use the attachment scheme, refuting the unconditional clause. -/
theorem c3_attachment_url_from_index :
    (finalizeGrading (.str "A1") [plainDetail "attachment://abc"]
        (.obj [("hero_image_index", .num (.val 1))]) none).hero_image_url =
      some "attachment://abc" ∧
    jsStartsWith "attachment://abc" "attachment://" = true := by
  constructor
  · decide
  · decide

/-- C3 (amended): provided none of the offer image urls uses the
attachment scheme, the final hero url never starts with the attachment
scheme; and, unconditionally, a reply carrying an attachment-scheme url
with no coerced index yields both hero fields absent. -/
theorem c3_attachment_scheme_rejected (activityId : JsValue) (cand : List ImageDetail)
    (parsed : JsValue) (responseId : Option String)
    (hclean : ∀ d ∈ cand, jsStartsWith (d.url.getD "") "attachment://" = false) :
    (∀ u, (finalizeGrading activityId cand parsed responseId).hero_image_url = some u →
      jsStartsWith u "attachment://" = false) ∧
    (∀ u, jsGet parsed "hero_image_url" = .str u →
      jsStartsWith (jsTrim u) "attachment://" = true →
      coerceHeroIndex (jsGet parsed "hero_image_index") = none →
      (finalizeGrading activityId cand parsed responseId).hero_image_index = none ∧
      (finalizeGrading activityId cand parsed responseId).hero_image_url = none) := by
  constructor
  · intro u hu
    rw [finalizeGrading_hero_url] at hu
    exact reconcileHero_url_clean cand _ _ hclean u hu
  · intro u hraw htrim hidx
    have hne : u ≠ "" := by
      intro h
      subst h
      revert htrim
      decide
    have htr : jsTrim u ≠ "" := by
      intro h
      rw [h] at htrim
      revert htrim
      decide
    have hurl0 : coerceHeroUrl (jsGet parsed "hero_image_url") = some (jsTrim u) := by
      rw [hraw]
      unfold coerceHeroUrl
      rw [if_pos (show jsTruthy (JsValue.str u) = true by simpa [jsTruthy] using hne)]
      show (if jsTrim u = "" then none else some (jsTrim u) : Option String) = some (jsTrim u)
      rw [if_neg htr]
    have hatt : heroStepAttachment (some (jsTrim u)) = none := by
      unfold heroStepAttachment
      rw [if_pos ⟨by simp [strTruthy, htr], by simpa using htrim⟩]
    have hpair : reconcileHero cand none (some (jsTrim u)) = (none, none) := by
      show (heroStepBackfill cand (heroStep1 cand none (some (jsTrim u))).1
              (heroStepRecover cand (heroStep1 cand none (some (jsTrim u))).1
                (heroStepAttachment (heroStep1 cand none (some (jsTrim u))).2)),
            heroStepRecover cand (heroStep1 cand none (some (jsTrim u))).1
              (heroStepAttachment (heroStep1 cand none (some (jsTrim u))).2)) = (none, none)
      rw [show (heroStep1 cand none (some (jsTrim u))).1 = none from rfl,
          show (heroStep1 cand none (some (jsTrim u))).2 = some (jsTrim u) from rfl, hatt]
      rfl
    rw [finalizeGrading_hero_index, finalizeGrading_hero_url, hidx, hurl0, hpair]
    exact ⟨rfl, rfl⟩

/-- C3 witness: a clean two-image offer with an attachment-scheme reply
url and no index yields both hero fields absent. -/
theorem c3_attachment_scheme_rejected_witness :
    (∀ d ∈ [plainDetail "https://img/1"], jsStartsWith (d.url.getD "") "attachment://" = false) ∧
    ((finalizeGrading (.str "A1") [plainDetail "https://img/1"]
        (.obj [("hero_image_url", .str "attachment://abc")]) none).hero_image_index = none ∧
      (finalizeGrading (.str "A1") [plainDetail "https://img/1"]
        (.obj [("hero_image_url", .str "attachment://abc")]) none).hero_image_url = none) :=
  ⟨by decide,
    (c3_attachment_scheme_rejected (.str "A1") [plainDetail "https://img/1"]
      (.obj [("hero_image_url", .str "attachment://abc")]) none (by decide)).2
      "attachment://abc" rfl (by decide) (by decide)⟩

/-- C4: when no valid index was coerced and a non-empty non-attachment
url survives that matches the offer image list, the result carries the
1-based position of the first match together with that url. -/
theorem c4_url_backfills_index (activityId : JsValue) (cand : List ImageDetail)
    (parsed : JsValue) (responseId : Option String) (u : String) (k : Nat)
    (hinv : ∀ i, coerceHeroIndex (jsGet parsed "hero_image_index") = some i →
      ¬(1 ≤ i ∧ i ≤ (cand.length : Int)))
    (hurl : coerceHeroUrl (jsGet parsed "hero_image_url") = some u)
    (hatt : jsStartsWith u "attachment://" = false)
    (hfind : findIndexJs (fun d => d.url == some u) cand = some k) :
    (finalizeGrading activityId cand parsed responseId).hero_image_index =
      some ((k : Int) + 1) ∧
    (finalizeGrading activityId cand parsed responseId).hero_image_url = some u ∧
    ∃ d, cand.get? k = some d ∧ d.url = some u ∧
      ∀ j, j < k → ∀ b, cand.get? j = some b → b.url ≠ some u := by
  have hne : u ≠ "" := coerceHeroUrl_some hurl
  have hmain := reconcileHero_url_only cand
    (coerceHeroIndex (jsGet parsed "hero_image_index")) u k hinv hne
    (by simp [hatt]) hfind
  refine ⟨?_, ?_, ?_⟩
  · rw [finalizeGrading_hero_index, hurl, hmain]
  · rw [finalizeGrading_hero_url, hurl, hmain]
  · obtain ⟨d, hd, hpd, hmin⟩ := findIndexJs_some hfind
    refine ⟨d, hd, by simpa using hpd, ?_⟩
    intro j hj b hb hbu
    have := hmin j hj b hb
    rw [hbu] at this
    simp at this

/-- C4 witness: a reply carrying only the url of position 2 backfills
index 2. -/
theorem c4_url_backfills_index_witness :
    (finalizeGrading (.str "A1") [plainDetail "https://img/1", plainDetail "https://img/2"]
        (.obj [("hero_image_url", .str "https://img/2")]) none).hero_image_index =
      some 2 ∧
    (finalizeGrading (.str "A1") [plainDetail "https://img/1", plainDetail "https://img/2"]
        (.obj [("hero_image_url", .str "https://img/2")]) none).hero_image_url =
      some "https://img/2" := by
  have hinv : ∀ i : Int, coerceHeroIndex (jsGet
      (JsValue.obj [("hero_image_url", JsValue.str "https://img/2")]) "hero_image_index") =
      some i → ¬(1 ≤ i ∧ i ≤ (([plainDetail "https://img/1", plainDetail "https://img/2"] :
        List ImageDetail).length : Int)) := by
    intro i hi
    rw [show coerceHeroIndex (jsGet (JsValue.obj [("hero_image_url",
      JsValue.str "https://img/2")]) "hero_image_index") = none from rfl] at hi
    exact Option.noConfusion hi
  have h := c4_url_backfills_index (.str "A1")
    [plainDetail "https://img/1", plainDetail "https://img/2"]
    (.obj [("hero_image_url", .str "https://img/2")]) none "https://img/2" 1
    hinv (by decide) (by decide) (by decide)
  refine ⟨?_, h.2.1⟩
  rw [h.1]
  decide

/-- C10: the reconciler validates the returned index against the full
image_details list, not the 8-image slice shown in the prompt and
attached to the request: an index beyond 8 but within the full list is
kept, and the hero url comes from a detail that appears in neither the
prompt slice nor the attached payload. -/
theorem c10_index_validated_against_full_list (offer : StructuredOffer) (parsed : JsValue)
    (responseId : Option String) (i : Int)
    (hu : ∀ d ∈ offer.image_details, d.url.getD "" ≠ "")
    (hnd : (offer.image_details.map (fun d => d.url.getD "")).Nodup)
    (h8 : 8 < i) (hle : i ≤ (offer.image_details.length : Int))
    (hraw : coerceHeroIndex (jsGet parsed "hero_image_index") = some i) :
    8 < offer.image_details.length ∧
    (finalizeGrading (jsNullishToNull offer.activity_id) offer.image_details parsed
      responseId).hero_image_index = some i ∧
    ∃ d, offer.image_details.get? (i - 1).toNat = some d ∧
      (finalizeGrading (jsNullishToNull offer.activity_id) offer.image_details parsed
        responseId).hero_image_url = d.url ∧
      (∀ e ∈ promptImageDetails offer, e.url ≠ d.url) ∧
      d.url.getD "" ∉ imagePayload offer := by
  have h1 : 1 ≤ i := by omega
  obtain ⟨d, hd, heq⟩ := reconcileHero_valid_idx offer.image_details i
    (coerceHeroUrl (jsGet parsed "hero_image_url")) hu h1 hle
  have hk0 : (i - 1).toNat < offer.image_details.length := by omega
  have hk8 : 8 ≤ (i - 1).toNat := by omega
  have hdval : d = offer.image_details.get ⟨(i - 1).toNat, hk0⟩ := by
    have := List.get?_eq_get hk0
    rw [hd] at this
    exact Option.some.inj this
  have hlen : 8 < offer.image_details.length := by omega
  have hprompt : ∀ e ∈ promptImageDetails offer, e.url ≠ d.url := by
    intro e he heud
    obtain ⟨⟨j, hj⟩, hget⟩ := List.mem_iff_get.mp he
    have hj8 : j < 8 := by
      have := hj
      simp [promptImageDetails, MAX_IMAGES_TO_REVIEW, List.length_take] at this
      omega
    have hjlen : j < offer.image_details.length := by
      have := hj
      simp [promptImageDetails, MAX_IMAGES_TO_REVIEW, List.length_take] at this
      omega
    have hgete : e = offer.image_details.get ⟨j, hjlen⟩ := by
      rw [← hget]
      simp [promptImageDetails]
    have hinj := List.nodup_iff_injective_get.mp hnd
    have hmaplen : ∀ m, m < offer.image_details.length →
        m < (offer.image_details.map (fun d => d.url.getD "")).length := by
      intro m hm
      simpa using hm
    have happ : (offer.image_details.map (fun d => d.url.getD "")).get
        ⟨j, hmaplen j hjlen⟩ =
        (offer.image_details.map (fun d => d.url.getD "")).get
        ⟨(i - 1).toNat, hmaplen _ hk0⟩ := by
      simp only [List.get_eq_getElem, List.getElem_map]
      rw [List.get_eq_getElem] at hgete hdval
      rw [← hgete, ← hdval, heud]
    have := hinj happ
    have hje : j = (i - 1).toNat := by
      simpa using congrArg Fin.val this
    omega
  refine ⟨hlen, ?_, d, hd, ?_, hprompt, ?_⟩
  · rw [finalizeGrading_hero_index, hraw, heq]
  · rw [finalizeGrading_hero_url, hraw, heq]
  · intro hmem
    obtain ⟨du, hdu, hdune⟩ := (getD_ne_empty_iff d.url).mp (hu d (List.get?_mem hd))
    unfold imagePayload at hmem
    obtain ⟨o, ho, hmatch⟩ := List.mem_filterMap.mp hmem
    obtain ⟨e, he, heo⟩ := List.mem_map.mp ho
    have hcases : o = some (d.url.getD "") := by
      cases o with
      | none => simp at hmatch
      | some x =>
        by_cases hx : x = ""
        · simp [hx] at hmatch
        · simp [hx] at hmatch
          rw [hmatch]
    have heurl : e.url = d.url := by
      rw [heo, hcases, hdu]
      simp
    exact hprompt e he heurl

/-- C10 witness: on a nine-image offer, index 9 is kept even though the
prompt and payload stop at image 8. -/
theorem c10_index_validated_against_full_list_witness :
    (∀ d ∈ nineImageOffer.image_details, d.url.getD "" ≠ "") ∧
    (nineImageOffer.image_details.map (fun d => d.url.getD "")).Nodup ∧
    8 < nineImageOffer.image_details.length ∧
    (finalizeGrading (jsNullishToNull nineImageOffer.activity_id)
      nineImageOffer.image_details (.obj [("hero_image_index", .num (.val 9))])
      none).hero_image_index = some 9 := by
  have h := c10_index_validated_against_full_list nineImageOffer
    (.obj [("hero_image_index", .num (.val 9))]) none 9
    (by decide) (by decide) (by decide) (by decide) (by decide)
  exact ⟨by decide, by decide, h.1, h.2.1⟩

/-- C2 (code evaluation at the failing input): a reply that is not
recoverable JSON yields the parse-failure reason embedding the raw text
and records the request id, but the resulting score is 0, not absent:
parseJsonResponse marks the failure with a null score, Number(null) is 0,
which passes the Number.isNaN guard and is clamped to 0. The empty reply
behaves the same way. -/
theorem c2_parse_failure_score_is_zero :
    (gradeOfferResponse baseOffer "not json" (some "resp-1")).score = some (.val 0) ∧
    (gradeOfferResponse baseOffer "not json" (some "resp-1")).reason =
      "Failed to parse JSON: not json" ∧
    (gradeOfferResponse baseOffer "not json" (some "resp-1")).response_id = some "resp-1" ∧
    (gradeOfferResponse baseOffer "" (some "resp-2")).score = some (.val 0) ∧
    (gradeOfferResponse baseOffer "" (some "resp-2")).reason =
      "Empty response from model." := by
  refine ⟨?_, ?_, ?_, ?_, ?_⟩ <;> decide

/-- A strict rational inequality is definitionally a Rat.blt fact. -/
theorem rat_blt_of_lt {p q : ℚ} (h : p < q) : Rat.blt p q = true := h

/-- A non-strict rational inequality definitionally refutes Rat.blt. -/
theorem rat_blt_not {p q : ℚ} (h : ¬ p < q) : ¬ Rat.blt p q = true := h

/-- Score normalisation of a finite rational reply value reduces to the
clamp expression. -/
theorem normaliseScore_val (q : ℚ) :
    normaliseScore (.num (.val q)) =
      some (.val (if Rat.blt 5 (if Rat.blt 0 q then q else 0) then 5
                  else if Rat.blt 0 q then q else 0)) := by
  unfold normaliseScore
  rw [if_neg (by simp [jsToNumber] : ¬ jsToNumber (.num (.val q)) = JsNum.nan)]
  show some (jsMin (.val 5) (jsMax (.val 0) (.val q))) = _
  simp [jsMax, jsMin]

/-- C5: the score field is coerced with Number() and clamped to the
closed range 0 to 5; a coercion to NaN leaves the score absent, and every
present score is a rational between 0 and 5. The sample inputs -3, 0,
4.7, 5, 9 map to 0, 0, 4.7, 5, 5. -/
theorem c5_score_clamped :
    normaliseScore (.num (.val (-3))) = some (.val 0) ∧
    normaliseScore (.num (.val 0)) = some (.val 0) ∧
    normaliseScore (.num (.val (47/10))) = some (.val (47/10)) ∧
    normaliseScore (.num (.val 5)) = some (.val 5) ∧
    normaliseScore (.num (.val 9)) = some (.val 5) ∧
    (∀ v, jsToNumber v = JsNum.nan → normaliseScore v = none) ∧
    (∀ v n, normaliseScore v = some n → ∃ q : ℚ, n = .val q ∧ 0 ≤ q ∧ q ≤ 5) := by
  refine ⟨?_, ?_, ?_, ?_, ?_, ?_, ?_⟩
  · rw [normaliseScore_val]
    rw [if_neg (rat_blt_not (show ¬((0:ℚ) < -3) by norm_num)),
        if_neg (rat_blt_not (show ¬((5:ℚ) < 0) by norm_num))]
  · rw [normaliseScore_val]
    rw [if_neg (rat_blt_not (show ¬((0:ℚ) < 0) by norm_num)),
        if_neg (rat_blt_not (show ¬((5:ℚ) < 0) by norm_num))]
  · rw [normaliseScore_val]
    rw [if_pos (rat_blt_of_lt (show (0:ℚ) < 47/10 by norm_num)),
        if_neg (rat_blt_not (show ¬((5:ℚ) < 47/10) by norm_num))]
  · rw [normaliseScore_val]
    rw [if_pos (rat_blt_of_lt (show (0:ℚ) < 5 by norm_num)),
        if_neg (rat_blt_not (show ¬((5:ℚ) < 5) by norm_num))]
  · rw [normaliseScore_val]
    rw [if_pos (rat_blt_of_lt (show (0:ℚ) < 9 by norm_num)),
        if_pos (rat_blt_of_lt (show (5:ℚ) < 9 by norm_num))]
  · intro v h
    unfold normaliseScore
    rw [if_pos h]
  · intro v n h
    unfold normaliseScore at h
    by_cases hn : jsToNumber v = JsNum.nan
    · rw [if_pos hn] at h
      exact absurd h (by simp)
    · rw [if_neg hn] at h
      cases hm : jsToNumber v with
      | nan => exact absurd hm hn
      | inf =>
        rw [hm, show jsMin (.val 5) (jsMax (.val 0) JsNum.inf) = .val 5 from by decide] at h
        exact ⟨5, (Option.some.inj h).symm, by norm_num, by norm_num⟩
      | ninf =>
        rw [hm, show jsMin (.val 5) (jsMax (.val 0) JsNum.ninf) = .val 0 from by decide] at h
        exact ⟨0, (Option.some.inj h).symm, le_refl 0, by norm_num⟩
      | val q =>
        rw [hm] at h
        simp only [jsMax, jsMin, Option.some.injEq] at h
        refine ⟨_, h.symm, ?_, ?_⟩
        · split_ifs with h1 h2 h3
          · norm_num
          · exact le_of_lt (show (0:ℚ) < q from h1)
          · norm_num
          · exact le_refl 0
        · split_ifs with h1 h2 h3
          · norm_num
          · exact le_of_not_lt (show ¬((5:ℚ) < q) from h2)
          · norm_num
          · norm_num

/-- C5 witness: a non-numeric score string coerces to NaN and leaves the
score absent. -/
theorem c5_score_clamped_witness :
    jsToNumber (.str "abc") = JsNum.nan ∧ normaliseScore (.str "abc") = none :=
  ⟨by decide, c5_score_clamped.2.2.2.2.2.1 (.str "abc") (by decide)⟩

/-- C9: the orchestrator filter keeps exactly the offers whose
upper-cased status label differs from the curated sentinel, so curated
offers are never enqueued; an empty queue returns an empty result set
before any grading call. -/
theorem c9_curated_offers_excluded :
    (∀ (offers : List StructuredOffer) (o : StructuredOffer),
      o ∈ offersToGrade offers ↔ o ∈ offers ∧ offerStatusLabel o ≠ "CURATED") ∧
    (∀ (offers : List StructuredOffer) (o : StructuredOffer), o ∈ offers →
      offerStatusLabel o = "CURATED" → o ∉ offersToGrade offers) ∧
    (∀ (grade : StructuredOffer → GradingResult) (arrival : List GradingResult),
      gradeOffersModel grade [] arrival = []) ∧
    gradeOffersCalls [] = [] := by
  have hmemb : ∀ (offers : List StructuredOffer) (o : StructuredOffer),
      o ∈ offersToGrade offers ↔ o ∈ offers ∧ offerStatusLabel o ≠ "CURATED" := by
    intro offers o
    unfold offersToGrade
    rw [List.mem_filter]
    simp [bne_iff_ne]
  refine ⟨hmemb, ?_, fun grade arrival => rfl, rfl⟩
  intro offers o _ hcur hgr
  exact ((hmemb offers o).mp hgr).2 hcur

/-- C9 witness: a case-variant curated offer is excluded, and the empty
queue grades nothing. -/
theorem c9_curated_offers_excluded_witness :
    curatedOffer ∈ [curatedOffer] ∧ offerStatusLabel curatedOffer = "CURATED" ∧
    curatedOffer ∉ offersToGrade [curatedOffer] ∧
    gradeOffersModel (fun _ => dupResultA) [] [] = [] :=
  ⟨List.mem_singleton.mpr rfl, by decide,
    c9_curated_offers_excluded.2.1 [curatedOffer] curatedOffer
      (List.mem_singleton.mpr rfl) (by decide),
    c9_curated_offers_excluded.2.2.1 (fun _ => dupResultA) []⟩

/-- Inserting one result permutes consing it. -/
theorem insertResult_perm (r : GradingResult) (l : List GradingResult) :
    (insertResult r l).Perm (r :: l) := by
  induction l with
  | nil => exact List.Perm.refl _
  | cons x xs ih =>
    unfold insertResult
    by_cases h : resultLe x r
    · rw [if_pos h]
      exact (ih.cons x).trans (List.Perm.swap r x xs)
    · rw [if_neg h]

/-- The sorted list is a permutation of the arrivals. -/
theorem sortResults_perm (l : List GradingResult) : (sortResults l).Perm l := by
  suffices h : ∀ (l acc : List GradingResult),
      (List.foldl (fun acc r => insertResult r acc) acc l).Perm (acc ++ l) by
    simpa using h l []
  intro l
  induction l with
  | nil => intro acc; simp
  | cons x xs ih =>
    intro acc
    simp only [List.foldl_cons]
    refine ((ih (insertResult x acc)).trans ?_)
    refine (((insertResult_perm x acc).append_right xs).trans ?_)
    exact List.perm_middle.symm

/-- Lexicographic comparison against the empty list is never true. -/
theorem listLexLt_nil : ∀ l : List Char, listLexLt l [] = false
  | [] => rfl
  | _ :: _ => rfl

/-- Lexicographic comparison is irreflexive. -/
theorem listLexLt_irrefl : ∀ l : List Char, listLexLt l l = false
  | [] => rfl
  | a :: as => by simp [listLexLt, listLexLt_irrefl as]

/-- Lexicographic comparison is transitive. -/
theorem listLexLt_trans : ∀ (a b c : List Char),
    listLexLt a b = true → listLexLt b c = true → listLexLt a c = true := by
  intro a
  induction a with
  | nil =>
    intro b c _ h2
    cases c with
    | nil =>
      rw [listLexLt_nil] at h2
      cases h2
    | cons z zs => rfl
  | cons x xs ih =>
    intro b c h1 h2
    cases b with
    | nil =>
      rw [listLexLt_nil] at h1
      cases h1
    | cons y ys =>
      cases c with
      | nil =>
        rw [listLexLt_nil] at h2
        cases h2
      | cons z zs =>
        simp only [listLexLt] at h1 h2 ⊢
        by_cases hxy : x < y
        · by_cases hyz : y < z
          · rw [if_pos (lt_trans hxy hyz)]
          · rw [if_neg hyz] at h2
            by_cases heq : y = z
            · subst heq
              rw [if_pos hxy]
            · rw [if_neg heq] at h2
              cases h2
        · rw [if_neg hxy] at h1
          by_cases hxyeq : x = y
          · rw [if_pos hxyeq] at h1
            subst hxyeq
            by_cases hyz : x < z
            · rw [if_pos hyz]
            · rw [if_neg hyz] at h2 ⊢
              by_cases heq : x = z
              · rw [if_pos heq] at h2 ⊢
                exact ih ys zs h1 h2
              · rw [if_neg heq] at h2
                cases h2
          · rw [if_neg hxyeq] at h1
            cases h1

/-- Lists neither of which lexicographically precedes the other are
equal. -/
theorem listLexLt_eq_of_not : ∀ (a b : List Char),
    listLexLt a b = false → listLexLt b a = false → a = b
  | [], [] => fun _ _ => rfl
  | [], _ :: _ => by
    intro h _
    cases h
  | _ :: _, [] => by
    intro _ h
    cases h
  | a :: as, b :: bs => by
    intro h1 h2
    simp only [listLexLt] at h1 h2
    rcases lt_trichotomy a b with h | h | h
    · rw [if_pos h] at h1
      cases h1
    · subst h
      rw [if_neg (lt_irrefl a), if_pos rfl] at h1 h2
      rw [listLexLt_eq_of_not as bs h1 h2]
    · rw [if_pos h] at h2
      cases h2

/-- Strict string comparison is asymmetric (via transitivity and
irreflexivity). -/
theorem strLt_asymm {a b : String} (h : strLt a b = true) : strLt b a = false := by
  cases hb : strLt b a
  · rfl
  · have := listLexLt_trans _ _ _ h hb
    rw [listLexLt_irrefl] at this
    cases this

/-- Strings neither of which precedes the other are equal. -/
theorem strLt_eq_of_not {a b : String} (h1 : strLt a b = false)
    (h2 : strLt b a = false) : a = b := by
  have h := listLexLt_eq_of_not _ _ h1 h2
  obtain ⟨da⟩ := a
  obtain ⟨db⟩ := b
  have hd : da = db := by simpa [String.toList] using h
  rw [hd]

/-- Not-greater is transitive for the string comparison. -/
theorem strLt_not_trans {a b c : String} (h1 : strLt b a = false)
    (h2 : strLt c b = false) : strLt c a = false := by
  cases hca : strLt c a
  · rfl
  · cases hbc : strLt b c
    · have hcb : c = b := strLt_eq_of_not h2 hbc
      rw [hcb] at hca
      rw [hca] at h1
      cases h1
    · have := listLexLt_trans _ _ _ hbc hca
      rw [show listLexLt b.toList a.toList = strLt b a from rfl, h1] at this
      cases this

/-- The comparator order is total. -/
theorem resultLe_total (a b : GradingResult) : resultLe a b ∨ resultLe b a := by
  unfold resultLe
  cases h1 : strLt (idStr a) (idStr b)
  · cases h2 : strLt (idStr b) (idStr a)
    · have hid : idStr a = idStr b := strLt_eq_of_not h1 h2
      cases h3 : strLt b.reason a.reason
      · exact Or.inl (Or.inr ⟨hid, rfl⟩)
      · exact Or.inr (Or.inr ⟨hid.symm, strLt_asymm h3⟩)
    · exact Or.inr (Or.inl rfl)
  · exact Or.inl (Or.inl rfl)

/-- The comparator order is transitive. -/
theorem resultLe_trans {a b c : GradingResult}
    (h1 : resultLe a b) (h2 : resultLe b c) : resultLe a c := by
  unfold resultLe at h1 h2 ⊢
  rcases h1 with h1 | ⟨e1, r1⟩
  · rcases h2 with h2 | ⟨e2, _⟩
    · exact Or.inl (listLexLt_trans _ _ _ h1 h2)
    · exact Or.inl (e2 ▸ h1)
  · rcases h2 with h2 | ⟨e2, r2⟩
    · exact Or.inl (e1 ▸ h2)
    · exact Or.inr ⟨e1.trans e2, strLt_not_trans r1 r2⟩

/-- Mutually comparable results share the sort key. -/
theorem resultLe_antisymm_key {a b : GradingResult}
    (h1 : resultLe a b) (h2 : resultLe b a) : resultKey a = resultKey b := by
  unfold resultLe at h1 h2
  rcases h1 with h1 | ⟨e1, r1⟩
  · rcases h2 with h2 | ⟨e2, _⟩
    · rw [strLt_asymm h1] at h2
      cases h2
    · rw [e2] at h1
      rw [show strLt (idStr a) (idStr a) = false from listLexLt_irrefl _] at h1
      cases h1
  · rcases h2 with h2 | ⟨e2, r2⟩
    · rw [e1] at h2
      rw [show strLt (idStr b) (idStr b) = false from listLexLt_irrefl _] at h2
      cases h2
    · unfold resultKey
      rw [e1, strLt_eq_of_not r2 r1]

/-- Insertion preserves sortedness. -/
theorem insertResult_pairwise {r : GradingResult} {l : List GradingResult}
    (h : List.Pairwise resultLe l) :
    List.Pairwise resultLe (insertResult r l) := by
  induction l with
  | nil => simp [insertResult]
  | cons x xs ih =>
    unfold insertResult
    rcases List.pairwise_cons.mp h with ⟨hx, hxs⟩
    by_cases hxr : resultLe x r
    · rw [if_pos hxr]
      refine List.Pairwise.cons ?_ (ih hxs)
      intro y hy
      rcases List.mem_cons.mp ((insertResult_perm r xs).mem_iff.mp hy) with rfl | hy'
      · exact hxr
      · exact hx y hy'
    · rw [if_neg hxr]
      have hrx : resultLe r x := (resultLe_total x r).resolve_left hxr
      refine List.Pairwise.cons ?_ h
      intro y hy
      rcases List.mem_cons.mp hy with rfl | hy'
      · exact hrx
      · exact resultLe_trans hrx (hx y hy')

/-- The sorted output is sorted under the comparator order. -/
theorem sortResults_pairwise (l : List GradingResult) :
    List.Pairwise resultLe (sortResults l) := by
  suffices h : ∀ (l acc : List GradingResult), List.Pairwise resultLe acc →
      List.Pairwise resultLe (List.foldl (fun acc r => insertResult r acc) acc l) by
    exact h l [] List.Pairwise.nil
  intro l
  induction l with
  | nil => intro acc h; simpa using h
  | cons x xs ih =>
    intro acc h
    exact ih _ (insertResult_pairwise h)

/-- Two sorted permutations of each other with pairwise distinct keys are
equal. -/
theorem sorted_results_unique : ∀ (l₁ l₂ : List GradingResult), l₁.Perm l₂ →
    List.Pairwise resultLe l₁ → List.Pairwise resultLe l₂ →
    List.Pairwise (fun a b => resultKey a ≠ resultKey b) l₁ → l₁ = l₂ := by
  intro l₁
  induction l₁ with
  | nil =>
    intro l₂ hp _ _ _
    exact hp.nil_eq
  | cons a t₁ ih =>
    intro l₂ hp hs1 hs2 hk
    cases l₂ with
    | nil =>
      have := hp.length_eq
      simp at this
    | cons b t₂ =>
      by_cases hab : a = b
      · subst hab
        have hpt := hp.cons_inv
        rw [ih t₂ hpt (List.pairwise_cons.mp hs1).2 (List.pairwise_cons.mp hs2).2
          (List.pairwise_cons.mp hk).2]
      · exfalso
        have hamem : a ∈ b :: t₂ := hp.mem_iff.mp (List.mem_cons_self a t₁)
        have hat2 : a ∈ t₂ := by
          rcases List.mem_cons.mp hamem with h | h
          · exact absurd h hab
          · exact h
        have hbmem : b ∈ a :: t₁ := hp.symm.mem_iff.mp (List.mem_cons_self b t₂)
        have hbt1 : b ∈ t₁ := by
          rcases List.mem_cons.mp hbmem with h | h
          · exact absurd h.symm hab
          · exact h
        have h1 : resultLe a b := (List.pairwise_cons.mp hs1).1 b hbt1
        have h2 : resultLe b a := (List.pairwise_cons.mp hs2).1 a hat2
        exact (List.pairwise_cons.mp hk).1 b hbt1 (resultLe_antisymm_key h1 h2)

/-- C8 counterexample: two distinct results sharing the (identifier,
reason) pair sort to different outputs depending on arrival order, so the
final ordering is not a pure function of the key pairs alone. -/
theorem c8_equal_keys_order_depends_on_arrival :
    resultKey dupResultA = resultKey dupResultB ∧
    [dupResultA, dupResultB].Perm [dupResultB, dupResultA] ∧
    (sortResults [dupResultA, dupResultB]).map GradingResult.hero_image_url =
      [some "https://a", some "https://b"] ∧
    (sortResults [dupResultB, dupResultA]).map GradingResult.hero_image_url =
      [some "https://b", some "https://a"] :=
  ⟨rfl, List.Perm.swap dupResultB dupResultA [], by decide, by decide⟩

/-- C8 (amended): whenever the (identifier string, reason) pairs are
pairwise distinct, the sorted batch output is a pure function of the
result multiset: any two arrival orders sort to the identical list. -/
theorem c8_sort_deterministic (l₁ l₂ : List GradingResult)
    (hperm : l₁.Perm l₂)
    (hkeys : List.Pairwise (fun a b => resultKey a ≠ resultKey b) l₁) :
    sortResults l₁ = sortResults l₂ := by
  have hp : (sortResults l₁).Perm (sortResults l₂) :=
    (sortResults_perm l₁).trans (hperm.trans (sortResults_perm l₂).symm)
  have hsymm : Symmetric (fun a b : GradingResult => resultKey a ≠ resultKey b) :=
    fun _ _ h e => h e.symm
  have hk1 : List.Pairwise (fun a b => resultKey a ≠ resultKey b) (sortResults l₁) :=
    ((sortResults_perm l₁).pairwise_iff @hsymm).mpr hkeys
  exact sorted_results_unique _ _ hp (sortResults_pairwise l₁) (sortResults_pairwise l₂) hk1

/-- C8 witness: two results with distinct keys sort identically from
either arrival order. -/
theorem c8_sort_deterministic_witness :
    [keyedResultA, keyedResultB].Perm [keyedResultB, keyedResultA] ∧
    List.Pairwise (fun a b => resultKey a ≠ resultKey b) [keyedResultA, keyedResultB] ∧
    sortResults [keyedResultA, keyedResultB] = sortResults [keyedResultB, keyedResultA] := by
  have hperm : [keyedResultA, keyedResultB].Perm [keyedResultB, keyedResultA] :=
    List.Perm.swap keyedResultB keyedResultA []
  have hkeys : List.Pairwise (fun a b => resultKey a ≠ resultKey b)
      [keyedResultA, keyedResultB] := by
    refine List.Pairwise.cons ?_ (List.pairwise_singleton _ _)
    intro y hy
    rw [List.mem_singleton.mp hy]
    decide
  exact ⟨hperm, hkeys, c8_sort_deterministic _ _ hperm hkeys⟩

/-- Every detail kept by the de-duplication loop comes from the input,
has a non-empty url and a url not in the seen set. -/
theorem dedupDetails_mem : ∀ {l : List ImageDetail} {seen : List String}
    {d : ImageDetail}, d ∈ dedupDetails l seen →
    d ∈ l ∧ d.url.getD "" ≠ "" ∧ d.url.getD "" ∉ seen := by
  intro l
  induction l with
  | nil =>
    intro seen d h
    simp [dedupDetails] at h
  | cons x xs ih =>
    intro seen d h
    unfold dedupDetails at h
    cases hu : x.url with
    | none =>
      rw [hu] at h
      obtain ⟨h1, h2, h3⟩ := ih h
      exact ⟨List.mem_cons_of_mem _ h1, h2, h3⟩
    | some u =>
      rw [hu] at h
      have hc : d ∈ (if u = "" ∨ u ∈ seen then dedupDetails xs seen
          else x :: dedupDetails xs (u :: seen)) := h
      by_cases hs : u = "" ∨ u ∈ seen
      · rw [if_pos hs] at hc
        obtain ⟨h1, h2, h3⟩ := ih hc
        exact ⟨List.mem_cons_of_mem _ h1, h2, h3⟩
      · rw [if_neg hs] at hc
        push_neg at hs
        rcases List.mem_cons.mp hc with rfl | h'
        · exact ⟨List.mem_cons_self _ _, by simp [hu, hs.1], by simp [hu]; exact hs.2⟩
        · obtain ⟨h1, h2, h3⟩ := ih h'
          refine ⟨List.mem_cons_of_mem _ h1, h2, fun hmem => h3 (List.mem_cons_of_mem _ hmem)⟩

/-- The urls of the de-duplicated details are pairwise distinct. -/
theorem dedupDetails_urls_nodup : ∀ (l : List ImageDetail) (seen : List String),
    ((dedupDetails l seen).map (fun d => d.url.getD "")).Nodup := by
  intro l
  induction l with
  | nil => intro seen; simp [dedupDetails]
  | cons x xs ih =>
    intro seen
    unfold dedupDetails
    cases hu : x.url with
    | none => exact ih seen
    | some u =>
      show (List.map (fun d => d.url.getD "") (if u = "" ∨ u ∈ seen then dedupDetails xs seen
        else x :: dedupDetails xs (u :: seen))).Nodup
      by_cases hs : u = "" ∨ u ∈ seen
      · rw [if_pos hs]
        exact ih seen
      · rw [if_neg hs]
        simp only [List.map_cons]
        refine List.Pairwise.cons ?_ (ih (u :: seen))
        intro y hy heq
        obtain ⟨e, he, hey⟩ := List.mem_map.mp hy
        obtain ⟨_, _, hnotin⟩ := dedupDetails_mem he
        rw [hey] at hnotin
        rw [hu] at heq
        simp at heq
        rw [← heq] at hnotin
        exact hnotin (List.mem_cons_self _ _)

/-- Every detail kept by the de-duplication loop is the first occurrence
of its url in the input. -/
theorem dedupDetails_first_occ : ∀ {l : List ImageDetail} {seen : List String}
    {d : ImageDetail}, d ∈ dedupDetails l seen →
    ∃ pre post, l = pre ++ d :: post ∧ ∀ e ∈ pre, e.url ≠ d.url := by
  intro l
  induction l with
  | nil =>
    intro seen d h
    simp [dedupDetails] at h
  | cons x xs ih =>
    intro seen d h
    have hd := dedupDetails_mem h
    obtain ⟨du, hdu, hdune⟩ := (getD_ne_empty_iff d.url).mp hd.2.1
    unfold dedupDetails at h
    cases hu : x.url with
    | none =>
      rw [hu] at h
      obtain ⟨pre, post, heq, hpre⟩ := ih h
      refine ⟨x :: pre, post, by simp [heq], ?_⟩
      intro e he
      rcases List.mem_cons.mp he with rfl | he'
      · rw [hu, hdu]
        simp
      · exact hpre e he'
    | some u =>
      rw [hu] at h
      have hc : d ∈ (if u = "" ∨ u ∈ seen then dedupDetails xs seen
          else x :: dedupDetails xs (u :: seen)) := h
      by_cases hs : u = "" ∨ u ∈ seen
      · rw [if_pos hs] at hc
        obtain ⟨pre, post, heq, hpre⟩ := ih hc
        have hdseen := (dedupDetails_mem hc).2.2
        refine ⟨x :: pre, post, by simp [heq], ?_⟩
        intro e he
        rcases List.mem_cons.mp he with rfl | he'
        · rw [hu, hdu]
          intro hc
          have huu : u = du := by simpa using hc
          rcases hs with hs | hs
          · exact hdune (huu ▸ hs)
          · rw [hdu] at hdseen
            simp at hdseen
            exact hdseen (huu ▸ hs)
        · exact hpre e he'
      · rw [if_neg hs] at hc
        rcases List.mem_cons.mp hc with rfl | h'
        · exact ⟨[], xs, rfl, by simp⟩
        · obtain ⟨pre, post, heq, hpre⟩ := ih h'
          have hdseen := (dedupDetails_mem h').2.2
          refine ⟨x :: pre, post, by simp [heq], ?_⟩
          intro e he
          rcases List.mem_cons.mp he with rfl | he'
          · rw [hu, hdu]
            intro hc
            have huu : u = du := by simpa using hc
            rw [hdu] at hdseen
            simp at hdseen
            exact hdseen.1 huu.symm
          · exact hpre e he'

/-- extractImageDetails de-duplicates the candidate stream. -/
theorem extractImageDetails_eq (v : JsValue) :
    extractImageDetails v = dedupDetails (extractCandidates v) [] := by
  cases v <;> rfl

/-- A list of details with non-empty urls maps through the url filter of
structureActivity to the list of its forced urls. -/
theorem urls_filterMap_eq_map : ∀ (l : List ImageDetail),
    (∀ d ∈ l, d.url.getD "" ≠ "") →
    ((l.map ImageDetail.url).filterMap (fun o =>
      match o with
      | some u => if u ≠ "" then some u else none
      | none => none)) = l.map (fun d => d.url.getD "") := by
  intro l
  induction l with
  | nil => intro _; rfl
  | cons x xs ih =>
    intro h
    obtain ⟨u, hu, hune⟩ := (getD_ne_empty_iff x.url).mp (h x (List.mem_cons_self _ _))
    simp only [List.map_cons, List.filterMap_cons, hu]
    rw [if_pos hune]
    rw [ih (fun d hd => h d (List.mem_cons_of_mem _ hd))]
    simp [hu]

/-- C6: for every raw activity, the structured offer has images equal to
the url list of its image details (same length, same order, keyed by
url), the urls are pairwise distinct and non-empty, every detail carries
a present non-empty url, and each kept detail is the first candidate
bearing its url. -/
theorem c6_images_details_deduplicated (activity : JsValue) (sourcePath : String) :
    (structureActivity activity sourcePath).images =
      (structureActivity activity sourcePath).image_details.map (fun d => d.url.getD "") ∧
    (structureActivity activity sourcePath).images.length =
      (structureActivity activity sourcePath).image_details.length ∧
    (structureActivity activity sourcePath).images.Nodup ∧
    (∀ u ∈ (structureActivity activity sourcePath).images, u ≠ "") ∧
    (∀ d ∈ (structureActivity activity sourcePath).image_details, d.url.getD "" ≠ "") ∧
    (∀ d ∈ (structureActivity activity sourcePath).image_details,
      ∃ pre post, extractCandidates (jsGet activity "images") = pre ++ d :: post ∧
        ∀ e ∈ pre, e.url ≠ d.url) := by
  have hdet : (structureActivity activity sourcePath).image_details =
      dedupDetails (extractCandidates (jsGet activity "images")) [] :=
    extractImageDetails_eq _
  have hne : ∀ d ∈ (structureActivity activity sourcePath).image_details,
      d.url.getD "" ≠ "" := by
    intro d hd
    rw [hdet] at hd
    exact (dedupDetails_mem hd).2.1
  have himg : (structureActivity activity sourcePath).images =
      (structureActivity activity sourcePath).image_details.map (fun d => d.url.getD "") :=
    urls_filterMap_eq_map (extractImageDetails (jsGet activity "images")) hne
  refine ⟨himg, ?_, ?_, ?_, hne, ?_⟩
  · rw [himg, List.length_map]
  · rw [himg, hdet]
    exact dedupDetails_urls_nodup _ _
  · intro u hu
    rw [himg] at hu
    obtain ⟨d, hd, hud⟩ := List.mem_map.mp hu
    rw [← hud]
    exact hne d hd
  · intro d hd
    rw [hdet] at hd
    exact dedupDetails_first_occ hd

/-- C6 witness: a record with a duplicated url across primary and nested
entries de-duplicates to two images in order, with consistent fields. -/
theorem c6_images_details_deduplicated_witness :
    (structureActivity sampleRawActivity "offers/sample.json").images =
      ["https://img/1", "https://img/2"] ∧
    (structureActivity sampleRawActivity "offers/sample.json").images =
      (structureActivity sampleRawActivity
        "offers/sample.json").image_details.map (fun d => d.url.getD "") ∧
    (structureActivity sampleRawActivity "offers/sample.json").images.Nodup :=
  ⟨by decide,
    (c6_images_details_deduplicated sampleRawActivity "offers/sample.json").1,
    by decide⟩

/-- Appending to a non-empty string is non-empty. -/
theorem str_append_ne (a b : String) (h : a ≠ "") : a ++ b ≠ "" := by
  intro hc
  apply h
  have hl := congrArg String.length hc
  rw [String.length_append] at hl
  have h0 : String.length "" = 0 := rfl
  rw [h0] at hl
  have ha : a.length = 0 := by omega
  cases a with
  | mk data =>
    cases data with
    | nil => rfl
    | cons x xs => simp [String.length] at ha

/-- A guarded filterMap is the map over the passing elements. -/
theorem filterMap_guard {α β : Type} (c : α → Prop) [DecidablePred c] (f : α → β) :
    ∀ l : List α, (l.filterMap (fun a => if c a then none else some (f a))) =
      (l.filter (fun a => decide (¬ c a))).map f := by
  intro l
  induction l with
  | nil => rfl
  | cons x xs ih =>
    by_cases hx : c x
    · simp only [List.filterMap_cons, List.filter_cons, if_pos hx]
      rw [if_neg (by simp [hx])]
      exact ih
    · simp only [List.filterMap_cons, List.filter_cons, if_neg hx]
      rw [if_pos (by simp [hx])]
      simp only [List.map_cons]
      rw [ih]

/-- Mapping a guarded value then dropping empties is the guarded
filterMap, when surviving values are non-empty. -/
theorem map_guard_filter {α : Type} (bodyF valF : α → String)
    (hval : ∀ a, bodyF a ≠ "" → valF a ≠ "") :
    ∀ l : List α,
      ((l.map (fun a => if bodyF a = "" then "" else valF a)).filter
        (fun s => decide (s ≠ ""))) =
      l.filterMap (fun a => if bodyF a = "" then none else some (valF a)) := by
  intro l
  induction l with
  | nil => rfl
  | cons x xs ih =>
    by_cases hx : bodyF x = ""
    · simp only [List.map_cons, List.filter_cons, List.filterMap_cons, if_pos hx]
      rw [if_neg (by simp)]
      exact ih
    · simp only [List.map_cons, List.filter_cons, List.filterMap_cons, if_neg hx]
      rw [if_pos (by simp [hval x hx])]
      rw [ih]

/-- Dropping empties is the identity on lists of non-empty strings. -/
theorem filter_bne_self (l : List String) (h : ∀ s ∈ l, s ≠ "") :
    l.filter (fun s => s != "") = l := by
  rw [List.filter_eq_self]
  intro a ha
  simpa using h a ha

/-- Rendering one encoded group follows the specification words: empty
content drops the group, a named group gets a level-3 heading, an
unnamed one appears bare (given trim-stable name and content). -/
theorem renderGroupBlock_encode (g : SpecGroup)
    (hn : jsTrim g.name = g.name) (hc : jsTrim g.content = g.content) :
    renderGroupBlock (encodeGroup g) =
      if g.content = "" then none
      else some (if g.name ≠ "" then "### " ++ g.name ++ "\n" ++ g.content
                 else g.content) := by
  have hname : jsTrim (jsToString (jsOr (jsGet (encodeGroup g) "group_name") (.str ""))) =
      g.name := by
    show jsTrim (jsToString (jsOr (.str g.name) (.str ""))) = g.name
    unfold jsOr
    by_cases h : g.name = ""
    · rw [h]
      rfl
    · rw [if_pos (show jsTruthy (.str g.name) = true by simp [jsTruthy, h])]
      exact hn
  have hcontent : jsTrim (jsToString (jsOr (jsGet (encodeGroup g) "content") (.str ""))) =
      g.content := by
    show jsTrim (jsToString (jsOr (.str g.content) (.str ""))) = g.content
    unfold jsOr
    by_cases h : g.content = ""
    · rw [h]
      rfl
    · rw [if_pos (show jsTruthy (.str g.content) = true by simp [jsTruthy, h])]
      exact hc
  unfold renderGroupBlock
  rw [if_pos (show jsTruthy (encodeGroup g) = true from rfl)]
  rw [hname, hcontent]
  by_cases hce : g.content = "" <;> by_cases hne : g.name = "" <;> simp [hce, hne]

/-- Rendering one encoded section follows the specification words: a
section whose surviving-group body is empty is dropped, a named one gets
a level-2 heading, an unnamed one appears bare. -/
theorem renderSectionChunk_encode (sec : SpecSection)
    (hn : jsTrim sec.name = sec.name)
    (hg : ∀ g ∈ sec.groups, jsTrim g.name = g.name ∧ jsTrim g.content = g.content) :
    renderSectionChunk (encodeSection sec) =
      (if String.intercalate "\n\n" ((sec.groups.filter (fun g => g.content ≠ "")).map
          (fun g => if g.name ≠ "" then "### " ++ g.name ++ "\n" ++ g.content
                    else g.content)) = ""
       then none
       else some (if sec.name ≠ "" then
          "## " ++ sec.name ++ "\n" ++ String.intercalate "\n\n"
            ((sec.groups.filter (fun g => g.content ≠ "")).map
              (fun g => if g.name ≠ "" then "### " ++ g.name ++ "\n" ++ g.content
                        else g.content))
        else String.intercalate "\n\n" ((sec.groups.filter (fun g => g.content ≠ "")).map
          (fun g => if g.name ≠ "" then "### " ++ g.name ++ "\n" ++ g.content
                    else g.content)))) := by
  have hname : jsTrim (jsToString (jsOr (jsGet (encodeSection sec) "section_name")
      (.str ""))) = sec.name := by
    show jsTrim (jsToString (jsOr (.str sec.name) (.str ""))) = sec.name
    unfold jsOr
    by_cases h : sec.name = ""
    · rw [h]
      rfl
    · rw [if_pos (show jsTruthy (.str sec.name) = true by simp [jsTruthy, h])]
      exact hn
  have hblocks : ((sec.groups.map encodeGroup).filterMap renderGroupBlock) =
      (sec.groups.filter (fun g => g.content ≠ "")).map
        (fun g => if g.name ≠ "" then "### " ++ g.name ++ "\n" ++ g.content
                  else g.content) := by
    rw [List.filterMap_map]
    rw [List.filterMap_congr (g := fun g =>
      if g.content = "" then none
      else some (if g.name ≠ "" then "### " ++ g.name ++ "\n" ++ g.content
                 else g.content))
      (by intro a ha; exact renderGroupBlock_encode a (hg a ha).1 (hg a ha).2)]
    exact filterMap_guard (fun g => g.content = "") _ sec.groups
  have hblocks_ne : ∀ s ∈ (sec.groups.filter (fun g => g.content ≠ "")).map
      (fun g => if g.name ≠ "" then "### " ++ g.name ++ "\n" ++ g.content
                else g.content), s ≠ "" := by
    intro s hs
    obtain ⟨g, hgmem, hgs⟩ := List.mem_map.mp hs
    have hgc : g.content ≠ "" := by
      have := List.of_mem_filter hgmem
      simpa using this
    rw [← hgs]
    by_cases h : g.name = ""
    · simp [h, hgc]
    · rw [if_pos h]
      exact str_append_ne _ _ (str_append_ne _ _
        (str_append_ne "### " g.name (by decide)))
  have hstep : renderSectionChunk (encodeSection sec) =
      (if "\n\n".intercalate (List.filter (fun s => s != "")
          (List.filterMap renderGroupBlock (sec.groups.map encodeGroup))) = "" then none
       else if jsTrim (jsToString (jsOr (jsGet (encodeSection sec) "section_name")
           (.str ""))) ≠ "" then
         some ("## " ++ jsTrim (jsToString (jsOr (jsGet (encodeSection sec) "section_name")
             (.str ""))) ++ "\n" ++
           "\n\n".intercalate (List.filter (fun s => s != "")
             (List.filterMap renderGroupBlock (sec.groups.map encodeGroup))))
       else some ("\n\n".intercalate (List.filter (fun s => s != "")
           (List.filterMap renderGroupBlock (sec.groups.map encodeGroup))))) := rfl
  rw [hstep, hname, hblocks, filter_bne_self _ hblocks_ne]
  by_cases hbody : String.intercalate "\n\n" ((sec.groups.filter
      (fun g => g.content ≠ "")).map (fun g =>
        if g.name ≠ "" then "### " ++ g.name ++ "\n" ++ g.content
        else g.content)) = "" <;>
    by_cases hne : sec.name = "" <;> simp [hbody, hne]

/-- C7: on trim-stable section sequences (the renderer additionally trims
names and contents, so we state the claim for inputs the trimming leaves
unchanged), the Description Renderer follows the specification words:
drop empty-content groups, heading-prefix named groups, join with blank
lines, drop empty-bodied sections, heading-prefix named sections, join
with blank lines; empty or absent input renders to the empty string. -/
theorem c7_render_sections_follows_spec (sections : List SpecSection)
    (htrim : ∀ sec ∈ sections, jsTrim sec.name = sec.name ∧
      ∀ g ∈ sec.groups, jsTrim g.name = g.name ∧ jsTrim g.content = g.content) :
    renderSections (encodeSections sections) = renderSectionsSpec sections ∧
    renderSections .null = "" ∧
    renderSections .undefined = "" ∧
    renderSections (.arr []) = "" := by
  refine ⟨?_, rfl, rfl, rfl⟩
  have hval : ∀ sec : SpecSection,
      String.intercalate "\n\n" ((sec.groups.filter (fun g => g.content ≠ "")).map
        (fun g => if g.name ≠ "" then "### " ++ g.name ++ "\n" ++ g.content
                  else g.content)) ≠ "" →
      (if sec.name ≠ "" then
        "## " ++ sec.name ++ "\n" ++ String.intercalate "\n\n"
          ((sec.groups.filter (fun g => g.content ≠ "")).map
            (fun g => if g.name ≠ "" then "### " ++ g.name ++ "\n" ++ g.content
                      else g.content))
       else String.intercalate "\n\n" ((sec.groups.filter (fun g => g.content ≠ "")).map
            (fun g => if g.name ≠ "" then "### " ++ g.name ++ "\n" ++ g.content
                      else g.content))) ≠ "" := by
    intro sec hb
    by_cases hn : sec.name = ""
    · simpa [hn] using hb
    · rw [if_pos hn]
      exact str_append_ne _ _ (str_append_ne _ _
        (str_append_ne "## " sec.name (by decide)))
  have hcode : renderSections (encodeSections sections) =
      String.intercalate "\n\n" (sections.filterMap (fun sec =>
        if String.intercalate "\n\n" ((sec.groups.filter (fun g => g.content ≠ "")).map
            (fun g => if g.name ≠ "" then "### " ++ g.name ++ "\n" ++ g.content
                      else g.content)) = "" then none
        else some (if sec.name ≠ "" then
            "## " ++ sec.name ++ "\n" ++ String.intercalate "\n\n"
              ((sec.groups.filter (fun g => g.content ≠ "")).map
                (fun g => if g.name ≠ "" then "### " ++ g.name ++ "\n" ++ g.content
                          else g.content))
          else String.intercalate "\n\n"
              ((sec.groups.filter (fun g => g.content ≠ "")).map
                (fun g => if g.name ≠ "" then "### " ++ g.name ++ "\n" ++ g.content
                          else g.content))))) := by
    have h1 : renderSections (encodeSections sections) =
        String.intercalate "\n\n" (((sections.map encodeSection).filterMap
          renderSectionChunk).filter (fun s => s != "")) := rfl
    rw [h1, List.filterMap_map]
    rw [List.filterMap_congr (by
      intro sec hsec
      exact renderSectionChunk_encode sec (htrim sec hsec).1 (htrim sec hsec).2)]
    rw [filter_bne_self]
    intro s hs
    obtain ⟨sec, _, hguard⟩ := List.mem_filterMap.mp hs
    by_cases hb : String.intercalate "\n\n" ((sec.groups.filter
        (fun g => g.content ≠ "")).map (fun g =>
          if g.name ≠ "" then "### " ++ g.name ++ "\n" ++ g.content
          else g.content)) = ""
    · rw [if_pos hb] at hguard
      cases hguard
    · rw [if_neg hb] at hguard
      have hv := hval sec hb
      rw [Option.some.inj hguard] at hv
      exact hv
  have hspec : renderSectionsSpec sections =
      String.intercalate "\n\n" (sections.filterMap (fun sec =>
        if String.intercalate "\n\n" ((sec.groups.filter (fun g => g.content ≠ "")).map
            (fun g => if g.name ≠ "" then "### " ++ g.name ++ "\n" ++ g.content
                      else g.content)) = "" then none
        else some (if sec.name ≠ "" then
            "## " ++ sec.name ++ "\n" ++ String.intercalate "\n\n"
              ((sec.groups.filter (fun g => g.content ≠ "")).map
                (fun g => if g.name ≠ "" then "### " ++ g.name ++ "\n" ++ g.content
                          else g.content))
          else String.intercalate "\n\n"
              ((sec.groups.filter (fun g => g.content ≠ "")).map
                (fun g => if g.name ≠ "" then "### " ++ g.name ++ "\n" ++ g.content
                          else g.content))))) := by
    show String.intercalate "\n\n" ((sections.map (fun sec =>
        if String.intercalate "\n\n" ((sec.groups.filter (fun g => g.content ≠ "")).map
            (fun g => if g.name ≠ "" then "### " ++ g.name ++ "\n" ++ g.content
                      else g.content)) = "" then ""
        else if sec.name ≠ "" then
            "## " ++ sec.name ++ "\n" ++ String.intercalate "\n\n"
              ((sec.groups.filter (fun g => g.content ≠ "")).map
                (fun g => if g.name ≠ "" then "### " ++ g.name ++ "\n" ++ g.content
                          else g.content))
          else String.intercalate "\n\n"
              ((sec.groups.filter (fun g => g.content ≠ "")).map
                (fun g => if g.name ≠ "" then "### " ++ g.name ++ "\n" ++ g.content
                          else g.content)))).filter (fun s => decide (s ≠ ""))) = _
    rw [map_guard_filter _ _ hval sections]
  rw [hcode, hspec]

/-- C7 witness: a mixed sample with a named section, an unnamed group, an
empty-content group and an unnamed section renders identically under the
code and the specification words. -/
theorem c7_render_sections_follows_spec_witness :
    (∀ sec ∈ sampleSections, jsTrim sec.name = sec.name ∧
      ∀ g ∈ sec.groups, jsTrim g.name = g.name ∧ jsTrim g.content = g.content) ∧
    renderSections (encodeSections sampleSections) = renderSectionsSpec sampleSections ∧
    renderSectionsSpec sampleSections =
      "## Overview\nGreat trip\n\n### Tips\nBring water" :=
  ⟨by decide, (c7_render_sections_follows_spec sampleSections (by decide)).1, by decide⟩

end OfferCuration
